import Mathlib

/-!
# To-Do list: the task repository over the document store

A shallow embedding of `src/js/modules/storage.js` (class `Storage`) and
`src/js/modules/todoManager.js` (class `TodoManager`).

Modelling conventions.

* `localStorage` holds strings.  The string kept under the key `"ac-db"` is
  abstracted to what `JSON.parse` makes of it (`Stored`): the empty string,
  a text that does not parse, or the JSON value it denotes.  Writing
  `JSON.stringify(v)` and reading it back with `JSON.parse` returns `v` for
  every `Json` value, so a write stores the value itself.
* JavaScript numbers are the finite ones, as rationals (`Json.num`), plus
  `NaN` (`Val.nan`); the infinities and the sign of zero are left out.
* An object is the list of its own entries in insertion order; a key that
  occurs twice denotes its last value, as it does in JSON text.  The
  engine's reordering of integer-like keys is left out.
* A `try`/`catch` is a function that returns `Except JsError _` (the body)
  and a `match` on its result (the handler).  Every operation threads the
  store explicitly, because even a read may initialise the medium.
* `ErrorHandler.handleError` logs to the console and raises an alert; it
  touches neither the store nor the control flow and is not represented.
* `Array.prototype.sort` is a stable insertion sort that stops at the first
  error of its comparator; relational comparison is exact between two
  numbers and between two strings (by UTF-16 code unit).
-/

namespace TodoList

/-! ## Values -/

/-- JSON data: what `JSON.parse` can return and `JSON.stringify` keeps. -/
inductive Json where
  | null
  | bool (b : Bool)
  | num (q : ℚ)
  | str (s : String)
  | arr (xs : List Json)
  | obj (kvs : List (String × Json))

/-- The own entries of an object, in insertion order. -/
abbrev Fields := List (String × Json)

/-- A JavaScript value handed to or returned by a repository operation. -/
inductive Val where
  | undefined
  | nan
  | json (j : Json)

/-- The errors the embedded code can raise. -/
inductive JsError where
  | userError (message : String)
  | storageError (message : String)
  | typeError
  | referenceError
  | syntaxError
  | domException
  deriving DecidableEq

/-- Truthiness of JSON data (`ToBoolean`). -/
def Json.truthy : Json → Bool
  | .null => false
  | .bool b => b
  | .num q => decide (q ≠ 0)
  | .str s => decide (s ≠ "")
  | .arr _ => true
  | .obj _ => true

/-- Truthiness of a value (`ToBoolean`). -/
def Val.truthy : Val → Bool
  | .undefined => false
  | .nan => false
  | .json j => j.truthy

/-- Strict equality `a === b`.  Arrays and objects are compared by
reference; the two sides never share one here, because one side is always
freshly parsed from the medium. -/
def strictEq : Val → Val → Bool
  | .undefined, .undefined => true
  | .json .null, .json .null => true
  | .json (.bool a), .json (.bool b) => a == b
  | .json (.num a), .json (.num b) => decide (a = b)
  | .json (.str a), .json (.str b) => decide (a = b)
  | _, _ => false

/-- Reading `fields[key]`: the last entry under `key`, if there is one. -/
def getField : Fields → String → Option Json
  | [], _ => none
  | kv :: rest, key =>
    match getField rest key with
    | some w => some w
    | none => if kv.1 = key then some kv.2 else none

/-- Whether `key` is among the keys of `fields`. -/
def hasField (fields : Fields) (key : String) : Bool :=
  fields.any (fun kv => decide (kv.1 = key))

/-- Writing `fields[key] = v`: an existing key keeps its place and takes the
new value, a new key goes to the end. -/
def setField (fields : Fields) (key : String) (v : Json) : Fields :=
  if hasField fields key then
    fields.map (fun kv => if kv.1 = key then (kv.1, v) else kv)
  else fields ++ [(key, v)]

/-- Dropping `key` from the entries. -/
def eraseField (fields : Fields) (key : String) : Fields :=
  fields.filter (fun kv => !decide (kv.1 = key))

/-- Object spread `{ ...acc, ...src }`: the entries of `src` are written
into `acc` one after the other. -/
def spread (acc src : Fields) : Fields :=
  src.foldl (fun a kv => setField a kv.1 kv.2) acc

/-- Property read `v[key]` for a key that names a task or document field
(`id`, `title`, `completed`, `todo-list`, a sort key): `null` has no
properties, an object yields its entry, anything else has no such property. -/
def Json.getProp (j : Json) (key : String) : Except JsError Val :=
  match j with
  | .null => .error .typeError
  | .obj kvs =>
    match getField kvs key with
    | some v => .ok (.json v)
    | none => .ok .undefined
  | _ => .ok .undefined

/-- Property read `v[key]` on any value; `undefined` has no properties. -/
def Val.getProp (v : Val) (key : String) : Except JsError Val :=
  match v with
  | .undefined => .error .typeError
  | .nan => .ok .undefined
  | .json j => j.getProp key

/-- The own enumerable entries of an array, keyed by index from `i` on. -/
def indexEntries : Nat → List Json → Fields
  | _, [] => []
  | i, x :: xs => (toString i, x) :: indexEntries (i + 1) xs

/-- The own enumerable entries that an object spread or a rest pattern
copies from a value: the entries of an object, the indexed elements of an
array, the indexed characters of a string, nothing for other primitives. -/
def Val.ownEntries : Val → Fields
  | .json (.obj kvs) => kvs
  | .json (.arr xs) => indexEntries 0 xs
  | .json (.str s) => indexEntries 0 (s.toList.map (fun c => Json.str (String.singleton c)))
  | _ => []

/-- Assignment `db[key] = v` inside module (strict) code, giving the
document as `JSON.stringify` will write it: `null` and primitives reject the
assignment, an array takes a property that serialisation does not keep, an
object takes the entry (an `undefined` value is not serialised, `NaN` is
serialised as `null`). -/
def assignProp (db : Json) (key : String) (v : Val) : Except JsError Json :=
  match db with
  | .obj kvs =>
    match v with
    | .undefined => .ok (.obj (eraseField kvs key))
    | .nan => .ok (.obj (setField kvs key .null))
    | .json j => .ok (.obj (setField kvs key j))
  | .arr xs => .ok (.arr xs)
  | _ => .error .typeError

/-! ## The medium -/

/-- What `JSON.parse` makes of the string kept under the storage key. -/
inductive Stored where
  | empty
  | corrupt
  | json (v : Json)

/-- A state of the persistence medium: the string under `"ac-db"` (`none`
when the key is not set), whether `localStorage.getItem` succeeds and
whether `localStorage.setItem` succeeds. -/
structure Store where
  item : Option Stored
  canRead : Bool
  canWrite : Bool

/-- Reading `localStorage.getItem(storageKey)`. -/
def Store.getItem (s : Store) : Except JsError (Option Stored) :=
  if s.canRead then .ok s.item else .error .domException

/-- Writing `localStorage.setItem(storageKey, JSON.stringify(v))`. -/
def Store.setItem (s : Store) (v : Json) : Except JsError Store :=
  if s.canWrite then .ok { s with item := some (.json v) } else .error .domException

/-- Truthiness of what `getItem` returned: `null` and `""` are falsy. -/
def dataTruthy : Option Stored → Bool
  | none => false
  | some .empty => false
  | some .corrupt => true
  | some (.json _) => true

/-- Parsing `JSON.parse(data)` for a truthy `data`. -/
def jsonParse : Option Stored → Except JsError Json
  | some (.json v) => .ok v
  | _ => .error .syntaxError

/-! ## `Storage` (storage.js) -/

/-- `Storage.init` (storage.js 16-30). -/
def init (s : Store) : Except JsError Json × Store :=
  match s.getItem with
  | .error _ => (.error (.storageError "Error initializing storage:"), s)
  | .ok data =>
    if !dataTruthy data then
      match s.setItem (.obj []) with
      | .error _ => (.error (.storageError "Error initializing storage:"), s)
      | .ok s1 => (.ok (.obj []), s1)
    else
      match jsonParse data with
      | .error _ => (.error (.storageError "Error initializing storage:"), s)
      | .ok db => (.ok db, s)

/-- `Storage.getDB` (storage.js 36-43).  The handler builds its message
from `key`, a name bound nowhere in the module, so what leaves the handler
is the `ReferenceError` of that evaluation. -/
def getDB (s : Store) : Except JsError Json × Store :=
  let body : Except JsError Json × Store :=
    match s.getItem with
    | .error e => (.error e, s)
    | .ok data =>
      if dataTruthy data then (jsonParse data, s) else init s
  match body with
  | (.ok db, s1) => (.ok db, s1)
  | (.error _, s1) => (.error .referenceError, s1)

/-- `Storage.saveDB` (storage.js 49-55); its handler names `key` as well. -/
def saveDB (s : Store) (data : Json) : Except JsError Store :=
  match s.setItem data with
  | .ok s1 => .ok s1
  | .error _ => .error .referenceError

/-! ## `TodoManager` (todoManager.js) -/

/-- The property name of the task list inside the document. -/
def todoKey : String := "todo-list"

/-- `TodoManager.getTodos` (todoManager.js 19-27): the handler returns
nothing, so a failed read yields `undefined`. -/
def getTodos (s : Store) : Val × Store :=
  match getDB s with
  | (.error _, s1) => (.undefined, s1)
  | (.ok db, s1) =>
    match db.getProp todoKey with
    | .error _ => (.undefined, s1)
    | .ok v => (if v.truthy then v else .json (.arr []), s1)

/-- `TodoManager.saveTodos` (todoManager.js 33-42). -/
def saveTodos (s : Store) (todoList : Val) : Store :=
  match getDB s with
  | (.error _, s1) => s1
  | (.ok db, s1) =>
    match assignProp db todoKey todoList with
    | .error _ => s1
    | .ok db1 =>
      match saveDB s1 db1 with
      | .error _ => s1
      | .ok s2 => s2

/-- `TodoManager.validateTodo` (todoManager.js 208-216):
`todo && typeof todo.title === "string"`. -/
def validateTodo (todo : Val) : Bool :=
  todo.truthy &&
    (match todo.getProp "title" with
     | .ok (.json (.str _)) => true
     | _ => false)

/-- The two clock readings of `addTodo`: `Date.now()` and
`new Date().toISOString()`. -/
structure Clock where
  now : Int
  iso : String

/-- The object literal `{ id: Date.now(), ...todo, createdAt: ... }`
(todoManager.js 55-59). -/
def newTodo (clock : Clock) (todo : Val) : Fields :=
  setField (spread [("id", .num clock.now)] todo.ownEntries) "createdAt" (.str clock.iso)

/-- The call `todos.push(x)`: only an array has the method. -/
def arrayPush (todos : Val) (x : Json) : Except JsError Val :=
  match todos with
  | .json (.arr xs) => .ok (.json (.arr (xs ++ [x])))
  | _ => .error .typeError

/-- `TodoManager.addTodo` (todoManager.js 49-66). -/
def addTodo (s : Store) (clock : Clock) (todo : Val) : Store :=
  if !validateTodo todo then s
  else
    match getTodos s with
    | (todos, s1) =>
      match arrayPush todos (.obj (newTodo clock todo)) with
      | .error _ => s1
      | .ok todos1 => saveTodos s1 todos1

/-- The guard `typeof id === "number"`. -/
def Val.isNumber : Val → Bool
  | .nan => true
  | .json (.num _) => true
  | _ => false

/-- The rest pattern `const { id: _, ...otherFields } = updatedFields`:
`undefined` and `null` cannot be destructured; otherwise `otherFields` gets
the own entries except `id`. -/
def restWithoutId (updatedFields : Val) : Except JsError Fields :=
  match updatedFields with
  | .undefined => .error .typeError
  | .json .null => .error .typeError
  | v => .ok (eraseField v.ownEntries "id")

/-- The callback of `todos.map` in `updateTodo` (todoManager.js 83-98),
run over the elements in order; the flag is `todoFound`. -/
def updateEach (id updatedFields : Val) : List Json → Bool → Except JsError (List Json × Bool)
  | [], todoFound => .ok ([], todoFound)
  | todo :: rest, todoFound =>
    match todo.getProp "id" with
    | .error e => .error e
    | .ok tid =>
      if strictEq tid id then
        match restWithoutId updatedFields with
        | .error e => .error e
        | .ok otherFields =>
          if otherFields.length = 0 then
            .error (.userError "No valid fields provided for updating Todo.")
          else
            match updateEach id updatedFields rest true with
            | .error e => .error e
            | .ok (out, found) =>
              .ok (.obj (spread (spread [] (Val.json todo).ownEntries) otherFields) :: out, found)
      else
        match updateEach id updatedFields rest todoFound with
        | .error e => .error e
        | .ok (out, found) => .ok (todo :: out, found)

/-- The body of the `try` block of `updateTodo` (todoManager.js 75-106):
the error it raises or the store after the save, paired with the store as
the handler finds it after a failure.  The not-found message leaves out the
interpolated id. -/
def updateTodoBody (s : Store) (id updatedFields : Val) : Except JsError Store × Store :=
  if !id.truthy || !id.isNumber then
    (.error (.userError "Invalid ID provided for updating Todo."), s)
  else
    match getTodos s with
    | (.json (.arr xs), s1) =>
      (match updateEach id updatedFields xs false with
       | .error e => (.error e, s1)
       | .ok (updatedTodos, todoFound) =>
         if !todoFound then (.error (.userError "Todo with ID not found."), s1)
         else (.ok (saveTodos s1 (.json (.arr updatedTodos))), s1))
    | (_, s1) => (.error .typeError, s1)

/-- `TodoManager.updateTodo` (todoManager.js 74-113). -/
def updateTodo (s : Store) (id updatedFields : Val) : Bool × Store :=
  match updateTodoBody s id updatedFields with
  | (.ok s2, _) => (true, s2)
  | (.error _, s1) => (false, s1)

/-- The callback of `todos.filter` in `removeTodo` (todoManager.js 122),
`todo.id !== id`, run over the elements in order. -/
def removeEach (id : Val) : List Json → Except JsError (List Json)
  | [] => .ok []
  | todo :: rest =>
    match todo.getProp "id" with
    | .error e => .error e
    | .ok tid =>
      match removeEach id rest with
      | .error e => .error e
      | .ok out => .ok (if !strictEq tid id then todo :: out else out)

/-- `TodoManager.removeTodo` (todoManager.js 119-128). -/
def removeTodo (s : Store) (id : Val) : Store :=
  match getTodos s with
  | (.json (.arr xs), s1) =>
    (match removeEach id xs with
     | .error _ => s1
     | .ok updatedTodos => saveTodos s1 (.json (.arr updatedTodos)))
  | (_, s1) => s1

/-- The UTF-16 code units of a character: one unit below U+10000, a
surrogate pair from there on. -/
def charUnits (c : Char) : List Nat :=
  if c.toNat < 65536 then [c.toNat]
  else [55296 + (c.toNat - 65536) / 1024, 56320 + (c.toNat - 65536) % 1024]

/-- The UTF-16 code units of a list of characters. -/
def unitsOf : List Char → List Nat
  | [] => []
  | c :: cs => charUnits c ++ unitsOf cs

/-- The UTF-16 code units of a string, the sequence a JavaScript string is.
(A string with a lone surrogate has no counterpart here.) -/
def codeUnits (s : String) : List Nat :=
  unitsOf s.toList

/-- The string case of the relational comparison: the first differing code
unit decides, and a proper prefix comes first. -/
def unitsLess : List Nat → List Nat → Bool
  | [], [] => false
  | [], _ :: _ => true
  | _ :: _, [] => false
  | a :: as, b :: bs => if a < b then true else if b < a then false else unitsLess as bs

/-- The operand of a relational comparison as a number (`ToNumber`), for
the operands that are not strings: `undefined` and `NaN` give `NaN`
(`none`), `null` gives 0, a boolean 0 or 1, a number itself.  A string, an
array or an object against a non-string is taken as `NaN` here, whereas the
engine converts it (`10 > "9"` is true): the model is exact only for two
numbers, two strings, and operands among `undefined`, `NaN`, `null`,
booleans and numbers. -/
def toNumber : Val → Option ℚ
  | .json .null => some 0
  | .json (.bool b) => some (if b then 1 else 0)
  | .json (.num q) => some q
  | _ => none

/-- The relational comparison `a < b`: two strings compare by their UTF-16
code units, otherwise both sides are taken as numbers and a `NaN` side makes
the comparison false. -/
def lessThan (a b : Val) : Bool :=
  match a, b with
  | .json (.str x), .json (.str y) => unitsLess (codeUnits x) (codeUnits y)
  | _, _ =>
    match toNumber a, toNumber b with
    | some x, some y => decide (x < y)
    | _, _ => false

/-- The comparator of `filterTodos` (todoManager.js 190-193):
`a[sortKey] > b[sortKey] ? 1 : a[sortKey] < b[sortKey] ? -1 : 0`, negated
when `ascending` is falsy. -/
def compareTodos (sortKey : String) (ascending : Bool) (a b : Json) : Except JsError Int :=
  match a.getProp sortKey with
  | .error e => .error e
  | .ok x =>
    match b.getProp sortKey with
    | .error e => .error e
    | .ok y =>
      let comparison : Int := if lessThan y x then 1 else if lessThan x y then -1 else 0
      .ok (if ascending then comparison else -comparison)

/-- One insertion step of the stable sort: `a` goes before the first
element it does not compare greater than. -/
def sortInsert (cmp : Json → Json → Except JsError Int) (a : Json) :
    List Json → Except JsError (List Json)
  | [] => .ok [a]
  | b :: rest =>
    match cmp a b with
    | .error e => .error e
    | .ok c =>
      if c ≤ 0 then .ok (a :: b :: rest)
      else
        match sortInsert cmp a rest with
        | .error e => .error e
        | .ok out => .ok (b :: out)

/-- The engine's `Array.prototype.sort(cmp)`, as a stable insertion sort;
an error raised by the comparator ends the sort.  When the comparator is a
consistent order on the elements (as it is when the values compared are all
numbers or all strings) every stable sort returns this list; when it is not
(elements without the key, values of mixed kinds) the order is left to the
engine and may differ from the one computed here. -/
def sortWith (cmp : Json → Json → Except JsError Int) : List Json → Except JsError (List Json)
  | [] => .ok []
  | a :: rest =>
    match sortWith cmp rest with
    | .error e => .error e
    | .ok sorted => sortInsert cmp a sorted

/-- The callback `todo.completed === flag` of `todos.filter` in
`filterTodos` (todoManager.js 181, 183), run over the elements in order. -/
def filterCompleted (flag : Bool) : List Json → Except JsError (List Json)
  | [] => .ok []
  | todo :: rest =>
    match todo.getProp "completed" with
    | .error e => .error e
    | .ok c =>
      match filterCompleted flag rest with
      | .error e => .error e
      | .ok out => .ok (if strictEq c (.json (.bool flag)) then todo :: out else out)

/-- The call `todos.filter(todo => todo.completed === flag)`: only an array
has the method. -/
def arrayFilterCompleted (flag : Bool) (todos : Val) : Except JsError Val :=
  match todos with
  | .json (.arr xs) =>
    (match filterCompleted flag xs with
     | .error e => .error e
     | .ok out => .ok (.json (.arr out)))
  | _ => .error .typeError

/-- The call `todos.sort(cmp)`: only an array has the method. -/
def arraySort (cmp : Json → Json → Except JsError Int) (todos : Val) : Except JsError Val :=
  match todos with
  | .json (.arr xs) =>
    (match sortWith cmp xs with
     | .error e => .error e
     | .ok out => .ok (.json (.arr out)))
  | _ => .error .typeError

/-- The destructured parameter of `filterTodos`: `filter` may be any value,
`sortKey` is a string or absent, `ascending` is any value (`undefined`
takes the default `true`). -/
structure FilterOptions where
  filter : Val
  sortKey : Option String
  ascending : Val

/-- The argument of `filterTodos`: left out, `null`, or an options object. -/
inductive OptionsArg where
  | absent
  | null
  | given (o : FilterOptions)

/-- The default `ascending = true` of the parameter pattern. -/
def ascendingOf (v : Val) : Bool :=
  match v with
  | .undefined => true
  | w => w.truthy

/-- The message of the error raised for an unknown filter. -/
def invalidFilterMessage : String :=
  "Invalid filter type. Use 'completed', 'pending', or 'all'."

/-- The body of the `try` block of `filterTodos` (todoManager.js 177-196). -/
def filterTodosBody (s : Store) (o : FilterOptions) : Except JsError Val × Store :=
  match getTodos s with
  | (todos, s1) =>
    let filtered : Except JsError Val :=
      if strictEq o.filter (.json (.str "completed")) then arrayFilterCompleted true todos
      else if strictEq o.filter (.json (.str "pending")) then arrayFilterCompleted false todos
      else if o.filter.truthy && !strictEq o.filter (.json (.str "all")) then
        .error (.userError invalidFilterMessage)
      else .ok todos
    match filtered with
    | .error e => (.error e, s1)
    | .ok todos1 =>
      match o.sortKey with
      | some key =>
        if key ≠ "" then (arraySort (compareTodos key (ascendingOf o.ascending)) todos1, s1)
        else (.ok todos1, s1)
      | none => (.ok todos1, s1)

/-- `TodoManager.filterTodos` (todoManager.js 175-201).  The parameter
pattern `{ filter, sortKey, ascending = true } = {}` is bound before the
`try` block is entered: a `null` argument cannot be destructured and that
error reaches the caller. -/
def filterTodos (s : Store) (options : OptionsArg) : Except JsError Val × Store :=
  match options with
  | .null => (.error .typeError, s)
  | .absent =>
    (match filterTodosBody s ⟨.undefined, none, .undefined⟩ with
     | (.ok todos, s1) => (.ok todos, s1)
     | (.error _, s1) => (.ok (.json (.arr [])), s1))
  | .given o =>
    (match filterTodosBody s o with
     | (.ok todos, s1) => (.ok todos, s1)
     | (.error _, s1) => (.ok (.json (.arr [])), s1))

/-- `TodoManager.clearTodos` (todoManager.js 134-146). -/
def clearTodos (s : Store) : Store :=
  saveTodos s (.json (.arr []))

/-- `TodoManager.orderTodos` (todoManager.js 154-165), for a string `key`;
an `undefined` `ascending` takes the default `true`. -/
def orderTodos (s : Store) (key : String) (ascending : Val) : Val × Store :=
  match getTodos s with
  | (todos, s1) =>
    match arraySort (compareTodos key (ascendingOf ascending)) todos with
    | .ok sorted => (sorted, s1)
    | .error _ => (.json (.arr []), s1)

/-! ## Store states with a readable document -/

/-- The medium serves reads and writes and the document can be read, with
the sequence `xs` under the task-list key: either nothing (or the empty
string) is stored and `xs` is empty, or the stored document is an object
whose task-list entry is the array `xs`, or is missing with `xs` empty. -/
def Store.HoldsList (s : Store) (xs : List Json) : Prop :=
  s.canRead = true ∧ s.canWrite = true ∧
    (((s.item = none ∨ s.item = some .empty) ∧ xs = []) ∨
      ∃ doc : Fields, s.item = some (.json (.obj doc)) ∧
        (getField doc todoKey = some (.arr xs) ∨ (getField doc todoKey = none ∧ xs = [])))

/-- A readable store state whose stored tasks are the records `ts`. -/
def Store.Holds (s : Store) (ts : List Fields) : Prop :=
  s.HoldsList (ts.map Json.obj)

/-- The value of field `key` of a task record, as a property read gives it. -/
def fieldVal (t : Fields) (key : String) : Val :=
  match getField t key with
  | some v => .json v
  | none => .undefined

/-- Whether the record `t` passes the test `todo.id === id`. -/
def matchesId (id : Val) (t : Fields) : Bool :=
  strictEq (fieldVal t "id") id

/-- The record `{ ...todo, ...otherFields }` that `updateTodo` puts in the
place of a matching task. -/
def mergeFields (t otherFields : Fields) : Fields :=
  spread (spread [] t) otherFields

/-- What the callback of `updateTodo` returns for the record `t`: the merged
record when `t` matches `id`, `t` itself otherwise. -/
def updateStep (id : Val) (otherFields : Fields) (t : Fields) : Fields :=
  if matchesId id t then mergeFields t otherFields else t

/-- How a stored record `t` and the record `t1` in its place after
`updateTodo(q, f)` relate, as the contract has it: a task with another id is
unchanged; a matching task keeps its id and holds, under every key of `f`
other than `id`, the value `f` gives. -/
def UpdatedAs (q : ℚ) (f : Fields) (t t1 : Fields) : Prop :=
  (fieldVal t "id" ≠ .json (.num q) → t1 = t) ∧
    (fieldVal t "id" = .json (.num q) →
      getField t1 "id" = getField t "id" ∧
        ∀ key v, key ≠ "id" → getField f key = some v → getField t1 key = some v)

/-- Whether the record `t` has a `completed` field that is the boolean
`flag`. -/
def completedIs (flag : Bool) (t : Fields) : Bool :=
  match getField t "completed" with
  | some (.bool b) => b == flag
  | _ => false

/-- The elements under the task-list key as `getTodos` returns them; none
when it does not return an array. -/
def storedTasks (s : Store) : List Json :=
  match (getTodos s).1 with
  | .json (.arr xs) => xs
  | _ => []

/-- Whether the stored element `todo` carries `id`, by the test
`todo.id === id` of the code. -/
def carriesId (id : Val) (todo : Json) : Bool :=
  match todo.getProp "id" with
  | .ok v => strictEq v id
  | .error _ => false

/-! ## Sample data -/

/-- A working medium on which nothing has been stored yet. -/
def freshStore : Store := ⟨none, true, true⟩

/-- A clock reading: 14 November 2023, 22:13:20 UTC. -/
def sampleClock : Clock := ⟨1700000000000, "2023-11-14T22:13:20.000Z"⟩

/-- The candidate `{ title: "Buy milk" }`. -/
def buyMilk : Fields := [("title", .str "Buy milk")]

/-- The candidate `{ title: "Buy milk", id: 7 }`. -/
def buyMilkWithId : Fields := [("title", .str "Buy milk"), ("id", .num 7)]

/-- A stored task with id 5, not completed. -/
def taskFive : Fields :=
  [("id", .num 5), ("title", .str "Walk the dog"), ("completed", .bool false),
    ("createdAt", .str "2023-11-14T08:00:00.000Z")]

/-- A stored task with id 9, completed. -/
def taskNine : Fields :=
  [("id", .num 9), ("title", .str "Pay rent"), ("completed", .bool true),
    ("createdAt", .str "2023-11-14T09:00:00.000Z")]

/-- A readable store whose document holds `taskFive` and `taskNine` next to
another top-level key. -/
def sampleStore : Store :=
  ⟨some (.json (.obj [("theme", .str "dark"),
    ("todo-list", .arr [.obj taskFive, .obj taskNine])])), true, true⟩

/-- A stored task whose id is the negative number -1. -/
def taskMinusOne : Fields :=
  [("id", .num (-1)), ("title", .str "Call mum"), ("completed", .bool false),
    ("createdAt", .str "2023-11-14T10:00:00.000Z")]

/-- A stored task whose id is the fraction 1/2. -/
def taskHalf : Fields :=
  [("id", .num (mkRat 1 2)), ("title", .str "Water plants"), ("completed", .bool false),
    ("createdAt", .str "2023-11-14T11:00:00.000Z")]

/-- A stored task whose id is 0. -/
def taskZero : Fields :=
  [("id", .num 0), ("title", .str "Buy stamps"), ("completed", .bool false),
    ("createdAt", .str "2023-11-14T12:00:00.000Z")]

/-- A readable store whose document holds `taskZero`. -/
def zeroIdStore : Store :=
  ⟨some (.json (.obj [("todo-list", .arr [.obj taskZero])])), true, true⟩

/-- A readable store whose document holds `taskMinusOne` and `taskHalf`. -/
def oddIdStore : Store :=
  ⟨some (.json (.obj [("todo-list", .arr [.obj taskMinusOne, .obj taskHalf])])), true, true⟩

/-- The medium serves reads and writes and the document can be read as a
mapping: nothing (or the empty string) is stored, which a read initialises
to the empty document, or the stored text is that of an object. -/
def Store.Readable (s : Store) : Prop :=
  s.canRead = true ∧ s.canWrite = true ∧
    (s.item = none ∨ s.item = some .empty ∨ ∃ doc : Fields, s.item = some (.json (.obj doc)))

/-- A medium whose stored text is not valid JSON. -/
def corruptStore : Store := ⟨some .corrupt, true, true⟩

/-- A medium that cannot be read (`getItem` throws) over a sound document. -/
def offlineStore : Store :=
  ⟨some (.json (.obj [("todo-list", .arr [.obj taskFive])])), false, true⟩

/-! ## Sequences of calls -/

/-- One call of a mutating repository operation, with its arguments (and,
for `addTodo`, the clock readings it makes). -/
inductive Call where
  | add (clock : Clock) (todo : Val)
  | update (id updatedFields : Val)
  | remove (id : Val)

/-- The store after one call. -/
def Call.run (s : Store) : Call → Store
  | .add clock todo => addTodo s clock todo
  | .update id updatedFields => (updateTodo s id updatedFields).2
  | .remove id => removeTodo s id

/-- The store after a sequence of calls, made in order. -/
def runCalls (s : Store) (calls : List Call) : Store :=
  calls.foldl Call.run s

/-- The millisecond clock readings of the `addTodo` calls of a sequence. -/
def addReadings : List Call → List Int
  | [] => []
  | .add clock _ :: rest => clock.now :: addReadings rest
  | .update _ _ :: rest => addReadings rest
  | .remove _ :: rest => addReadings rest

/-- Whether a call is not an `addTodo` of a candidate with an `id` entry of
its own. -/
def Call.noOwnId : Call → Bool
  | .add _ todo => (getField todo.ownEntries "id").isNone
  | _ => true

/-- The `id` entries of a list of task records, in order. -/
def taskIds (ts : List Fields) : List (Option Json) :=
  ts.map (fun t => getField t "id")

/-- The store holds task records with pairwise distinct ids, each of them one
of the millisecond readings `used`. -/
def Store.DistinctIds (s : Store) (used : List Int) : Prop :=
  ∃ ts : List Fields, s.Holds ts ∧ (taskIds ts).Nodup ∧
    ∀ t ∈ ts, ∃ n ∈ used, getField t "id" = some (.num n)

/-- The candidate `{ title: "Feed the cat" }`. -/
def feedCat : Fields := [("title", .str "Feed the cat")]

/-- A clock reading one millisecond after `sampleClock`. -/
def laterClock : Clock := ⟨1700000000001, "2023-11-14T22:13:20.001Z"⟩

/-- Two `addTodo` calls made within the same millisecond. -/
def sameMillisecondCalls : List Call :=
  [.add sampleClock (.json (.obj buyMilk)), .add sampleClock (.json (.obj feedCat))]

/-- Two `addTodo` calls a millisecond apart, then an update of the first
task, a removal of an id nobody carries and an `addTodo` of an invalid
candidate. -/
def sampleCalls : List Call :=
  [.add sampleClock (.json (.obj buyMilk)), .add laterClock (.json (.obj feedCat)),
    .update (.json (.num 1700000000000)) (.json (.obj [("completed", .bool true)])),
    .remove (.json (.num 3)), .add ⟨1700000000002, "2023-11-14T22:13:20.002Z"⟩ .undefined]

/-! ## Order of sort-key values -/

/-- Non-decreasing order of two sort-key values: numbers by size, strings
lexicographically by UTF-16 code unit (equal, or smaller at the first
difference, or a proper prefix); values of other or of mixed kinds are not
ordered. -/
def valLe : Val → Val → Prop
  | .json (.num x), .json (.num y) => x ≤ y
  | .json (.str x), .json (.str y) =>
    codeUnits x = codeUnits y ∨ List.Lex (fun m n : Nat => m < n) (codeUnits x) (codeUnits y)
  | _, _ => False

/-- The result `result` is a sequence of task records that is a permutation
of `sel` and in which the values under `key` are non-decreasing (`asc` true)
or non-increasing (`asc` false) from each task to every later one. -/
def SortedSelection (key : String) (asc : Bool) (sel : List Fields)
    (result : Except JsError Val) : Prop :=
  ∃ out : List Fields,
    result = .ok (.json (.arr (out.map Json.obj))) ∧ out.Perm sel ∧
      out.Pairwise (fun a b =>
        if asc then valLe (fieldVal a key) (fieldVal b key)
        else valLe (fieldVal b key) (fieldVal a key))

/-- The number under `key` in a record (0 when there is none). -/
def numKey (key : String) (t : Fields) : ℚ :=
  match getField t key with
  | some (.num q) => q
  | _ => 0

/-- The code units of the string under `key` in a record (none when there
is no string). -/
def strKey (key : String) (t : Fields) : List Nat :=
  match getField t key with
  | some (.str a) => codeUnits a
  | _ => []

/-- The order in which the comparator of `filterTodos` leaves two records
whose sort-key values are measured by `k`. -/
def keyRel {κ : Type} [LinearOrder κ] (k : Fields → κ) (asc : Bool) (a b : Fields) : Prop :=
  if asc then k a ≤ k b else k b ≤ k a

instance keyRelDecidable {κ : Type} [LinearOrder κ] (k : Fields → κ) (asc : Bool) :
    DecidableRel (keyRel k asc) :=
  fun a b => by
    unfold keyRel
    exact inferInstance

instance keyRelTotal {κ : Type} [LinearOrder κ] (k : Fields → κ) (asc : Bool) :
    IsTotal Fields (keyRel k asc) :=
  ⟨fun a b => by
    unfold keyRel
    cases asc
    · simpa using le_total (k b) (k a)
    · simpa using le_total (k a) (k b)⟩

instance keyRelTrans {κ : Type} [LinearOrder κ] (k : Fields → κ) (asc : Bool) :
    IsTrans Fields (keyRel k asc) :=
  ⟨fun a b c => by
    unfold keyRel
    cases asc
    · simpa using fun (h1 : k b ≤ k a) (h2 : k c ≤ k b) => le_trans h2 h1
    · simpa using fun (h1 : k a ≤ k b) (h2 : k b ≤ k c) => le_trans h1 h2⟩

/-! ## Store states whose document can be read without a write -/

/-- The document can be read, with the sequence `xs` under the task-list
key: the medium serves reads, and either the stored document is an object
whose task-list entry is the array `xs` (or is missing, with `xs` empty), or
nothing (or the empty string) is stored, `xs` is empty and the medium accepts
the write by which the first read initialises the document. -/
def Store.ReadsList (s : Store) (xs : List Json) : Prop :=
  s.canRead = true ∧
    (((s.item = none ∨ s.item = some .empty) ∧ s.canWrite = true ∧ xs = []) ∨
      ∃ doc : Fields, s.item = some (.json (.obj doc)) ∧
        (getField doc todoKey = some (.arr xs) ∨ (getField doc todoKey = none ∧ xs = [])))

/-- A store state whose document can be read and whose stored tasks are the
records `ts`; the medium need not accept writes once a document is stored. -/
def Store.Reads (s : Store) (ts : List Fields) : Prop :=
  s.ReadsList (ts.map Json.obj)

/-- For the filter value `filter` and the sort key `key`, `filterTodos`
returns a permutation of `sel` whose key values are non-decreasing when
`ascending` is left out or is `true`, and non-increasing when it is `false`. -/
def SortsSelection (s : Store) (filter : Val) (key : String) (sel : List Fields) : Prop :=
  SortedSelection key true sel
      (filterTodos s (.given ⟨filter, some key, .undefined⟩)).1 ∧
    SortedSelection key true sel
      (filterTodos s (.given ⟨filter, some key, .json (.bool true)⟩)).1 ∧
    SortedSelection key false sel
      (filterTodos s (.given ⟨filter, some key, .json (.bool false)⟩)).1

/-- A medium that serves reads and rejects writes, over a document that
holds `taskFive`. -/
def readOnlyStore : Store :=
  ⟨some (.json (.obj [("todo-list", .arr [.obj taskFive])])), true, false⟩

/-- A working medium whose document has the string `"abc"` under the
task-list key. -/
def textListStore : Store :=
  ⟨some (.json (.obj [("todo-list", .str "abc")])), true, true⟩

/-- A working medium whose stored list has a `null` element before
`taskFive`. -/
def nullElementStore : Store :=
  ⟨some (.json (.obj [("todo-list", .arr [.null, .obj taskFive])])), true, true⟩

/-- A task with id 1 and the number 2 under the empty key. -/
def rankTwo : Fields := [("id", .num 1), ("", .num 2)]

/-- A task with id 2 and the number 1 under the empty key. -/
def rankOne : Fields := [("id", .num 2), ("", .num 1)]

/-- A working medium whose document holds `rankTwo` before `rankOne`. -/
def emptyKeyStore : Store :=
  ⟨some (.json (.obj [("todo-list", .arr [.obj rankTwo, .obj rankOne])])), true, true⟩

/-- A task titled with the halfwidth-range character U+FF5E. -/
def taskTilde : Fields := [("id", .num 1), ("title", .str "～")]

/-- A task titled with the character U+1F600, a surrogate pair in UTF-16. -/
def taskSmile : Fields := [("id", .num 2), ("title", .str "😀")]

/-- A working medium whose document holds `taskTilde` before `taskSmile`. -/
def astralStore : Store :=
  ⟨some (.json (.obj [("todo-list", .arr [.obj taskTilde, .obj taskSmile])])), true, true⟩

/-- A medium on which nothing is stored and which rejects writes: the first
read cannot initialise the document. -/
def lockedEmptyStore : Store := ⟨none, true, false⟩

/-- A working medium whose stored text is the JSON number 5, not an object. -/
def numberDocStore : Store := ⟨some (.json (.num 5)), true, true⟩

/-! # Theorems -/

/-! ## Entries: reading after writing -/

theorem getField_cons (kv : String × Json) (rest : Fields) (key : String) :
    getField (kv :: rest) key =
      match getField rest key with
      | some w => some w
      | none => if kv.1 = key then some kv.2 else none := rfl

theorem getField_append_single (f : Fields) (k key : String) (v : Json) :
    getField (f ++ [(k, v)]) key = if k = key then some v else getField f key := by
  induction f with
  | nil => simp [getField]
  | cons kv rest ih =>
    rw [List.cons_append, getField_cons, getField_cons, ih]
    by_cases h : k = key
    · simp [h]
    · simp [h]

theorem getField_eq_none_of_not_hasField (f : Fields) (key : String)
    (h : hasField f key = false) : getField f key = none := by
  induction f with
  | nil => rfl
  | cons kv rest ih =>
    simp only [hasField, List.any_cons, Bool.or_eq_false_iff, decide_eq_false_iff_not] at h
    have h2 : hasField rest key = false := h.2
    rw [getField_cons, ih h2]
    simp [h.1]

theorem hasField_cons (kv : String × Json) (rest : Fields) (key : String) :
    hasField (kv :: rest) key = (decide (kv.1 = key) || hasField rest key) := by
  simp [hasField]

theorem getField_map_same (f : Fields) (k : String) (v : Json) (h : hasField f k = true) :
    getField (f.map (fun kv => if kv.1 = k then (kv.1, v) else kv)) k = some v := by
  induction f with
  | nil => simp [hasField] at h
  | cons kv rest ih =>
    rw [List.map_cons, getField_cons]
    by_cases hr : hasField rest k = true
    · rw [ih hr]
    · rw [Bool.not_eq_true] at hr
      rw [hasField_cons, hr, Bool.or_false, decide_eq_true_eq] at h
      have hn : hasField (rest.map (fun kv => if kv.1 = k then (kv.1, v) else kv)) k = false := by
        rw [← hr]
        simp only [hasField, List.any_map]
        congr 1
        funext kv
        by_cases hk : kv.1 = k <;> simp [hk]
      rw [getField_eq_none_of_not_hasField _ _ hn]
      simp [h]

theorem getField_map_other (f : Fields) (k key : String) (v : Json) (h : key ≠ k) :
    getField (f.map (fun kv => if kv.1 = k then (kv.1, v) else kv)) key = getField f key := by
  induction f with
  | nil => rfl
  | cons kv rest ih =>
    rw [List.map_cons, getField_cons, getField_cons, ih]
    by_cases hk : kv.1 = k
    · have : ¬ kv.1 = key := fun e => h (e.symm.trans hk)
      simp [hk, this, Ne.symm h]
    · simp [hk]

theorem getField_setField_same (f : Fields) (k : String) (v : Json) :
    getField (setField f k v) k = some v := by
  unfold setField
  by_cases h : hasField f k = true
  · rw [if_pos h]
    exact getField_map_same f k v h
  · rw [if_neg h, getField_append_single]
    simp

theorem getField_setField_other (f : Fields) (k key : String) (v : Json) (h : key ≠ k) :
    getField (setField f k v) key = getField f key := by
  unfold setField
  by_cases hf : hasField f k = true
  · rw [if_pos hf]
    exact getField_map_other f k key v h
  · rw [if_neg hf, getField_append_single]
    simp [Ne.symm h]

theorem spread_cons (acc : Fields) (kv : String × Json) (rest : Fields) :
    spread acc (kv :: rest) = spread (setField acc kv.1 kv.2) rest := rfl

theorem getField_spread (src acc : Fields) (key : String) :
    getField (spread acc src) key =
      match getField src key with
      | some v => some v
      | none => getField acc key := by
  induction src generalizing acc with
  | nil => rfl
  | cons kv rest ih =>
    rw [spread_cons, ih, getField_cons]
    cases getField rest key with
    | some w => rfl
    | none =>
      by_cases hk : kv.1 = key
      · subst hk
        simp [getField_setField_same]
      · simp [hk, getField_setField_other _ _ _ _ (Ne.symm hk)]

/-! ## Reading and saving on a readable store -/

theorem getTodos_obj (doc : Fields) (w : Bool) :
    getTodos ⟨some (.json (.obj doc)), true, w⟩ =
      (if (fieldVal doc todoKey).truthy then fieldVal doc todoKey else .json (.arr []),
        ⟨some (.json (.obj doc)), true, w⟩) := by
  unfold getTodos fieldVal
  cases hd : getField doc todoKey <;>
    simp [getDB, Store.getItem, dataTruthy, jsonParse, Json.getProp, hd]

theorem getTodos_of_holdsList (s : Store) (xs : List Json) (h : s.HoldsList xs) :
    (getTodos s).1 = .json (.arr xs) ∧ (getTodos s).2.HoldsList xs := by
  obtain ⟨item, r, w⟩ := s
  obtain ⟨hr, hw, hc⟩ := h
  simp only at hr hw hc
  subst hr hw
  rcases hc with ⟨hi, hx⟩ | ⟨doc, hi, hd⟩
  · subst hx
    rcases hi with hi | hi <;> subst hi <;>
      exact ⟨rfl, rfl, rfl, Or.inr ⟨[], rfl, Or.inr ⟨rfl, rfl⟩⟩⟩
  · subst hi
    rw [getTodos_obj]
    rcases hd with hd | ⟨hd, hx⟩
    · refine ⟨?_, rfl, rfl, Or.inr ⟨doc, rfl, Or.inl hd⟩⟩
      simp [fieldVal, hd, Val.truthy, Json.truthy]
    · subst hx
      refine ⟨?_, rfl, rfl, Or.inr ⟨doc, rfl, Or.inr ⟨hd, rfl⟩⟩⟩
      simp [fieldVal, hd, Val.truthy]

theorem saveTodos_of_holdsList (s : Store) (xs ys : List Json) (h : s.HoldsList xs) :
    (saveTodos s (.json (.arr ys))).HoldsList ys := by
  obtain ⟨item, r, w⟩ := s
  obtain ⟨hr, hw, hc⟩ := h
  simp only at hr hw hc
  subst hr hw
  rcases hc with ⟨hi, _⟩ | ⟨doc, hi, _⟩
  · rcases hi with hi | hi <;> subst hi <;>
      exact ⟨rfl, rfl, Or.inr ⟨_, rfl, Or.inl (getField_setField_same _ _ _)⟩⟩
  · subst hi
    exact ⟨rfl, rfl, Or.inr ⟨_, rfl, Or.inl (getField_setField_same _ _ _)⟩⟩

theorem getTodos_saveTodos (s : Store) (xs ys : List Json) (h : s.HoldsList xs) :
    (getTodos (saveTodos s (.json (.arr ys)))).1 = .json (.arr ys) :=
  (getTodos_of_holdsList _ ys (saveTodos_of_holdsList s xs ys h)).1

/-! ## `addTodo` -/

theorem validateTodo_of_title (c : Fields) (title : String)
    (ht : getField c "title" = some (.str title)) :
    validateTodo (.json (.obj c)) = true := by
  simp [validateTodo, Val.truthy, Json.truthy, Val.getProp, Json.getProp, ht]

theorem addTodo_getTodos (s : Store) (xs : List Json) (clock : Clock) (c : Fields)
    (title : String) (hs : s.HoldsList xs) (ht : getField c "title" = some (.str title)) :
    (getTodos (addTodo s clock (.json (.obj c)))).1 =
      .json (.arr (xs ++ [.obj (newTodo clock (.json (.obj c)))])) := by
  obtain ⟨h1, h2⟩ := getTodos_of_holdsList s xs hs
  unfold addTodo
  rw [validateTodo_of_title c title ht]
  cases hg : getTodos s with
  | mk todos s1 =>
    rw [hg] at h1 h2
    simp only at h1 h2
    subst h1
    simp only [Bool.not_true, Bool.false_eq_true, if_false, arrayPush]
    exact getTodos_saveTodos s1 xs _ h2

theorem newTodo_title (clock : Clock) (c : Fields) :
    getField (newTodo clock (.json (.obj c))) "title" = getField c "title" := by
  unfold newTodo
  rw [getField_setField_other _ _ _ _ (by decide), getField_spread]
  simp only [Val.ownEntries]
  cases getField c "title" <;> rfl

theorem newTodo_completed (clock : Clock) (c : Fields) :
    getField (newTodo clock (.json (.obj c))) "completed" = getField c "completed" := by
  unfold newTodo
  rw [getField_setField_other _ _ _ _ (by decide), getField_spread]
  simp only [Val.ownEntries]
  cases getField c "completed" <;> rfl

theorem newTodo_createdAt (clock : Clock) (todo : Val) :
    getField (newTodo clock todo) "createdAt" = some (.str clock.iso) :=
  getField_setField_same _ _ _

theorem newTodo_id (clock : Clock) (c : Fields) :
    getField (newTodo clock (.json (.obj c))) "id" =
      some ((getField c "id").getD (.num clock.now)) := by
  unfold newTodo
  rw [getField_setField_other _ _ _ _ (by decide), getField_spread]
  simp only [Val.ownEntries]
  cases getField c "id" <;> rfl

/-- C1 (as stated, refuted): a readable document is not enough.  Over a medium that rejects
writes, and over a document whose task-list entry is the string "abc", `addTodo` of the
candidate `{ title: "Buy milk" }` appends nothing: `getTodos` returns afterwards what it
returned before. -/
theorem addTodo_not_appended_counterexample :
    getField buyMilk "title" = some (.str "Buy milk") ∧
      (getDB readOnlyStore).1 = .ok (.obj [("todo-list", .arr [.obj taskFive])]) ∧
      (getTodos readOnlyStore).1 = .json (.arr [.obj taskFive]) ∧
      (getTodos (addTodo readOnlyStore sampleClock (.json (.obj buyMilk)))).1 =
        .json (.arr [.obj taskFive]) ∧
      (getDB textListStore).1 = .ok (.obj [("todo-list", .str "abc")]) ∧
      (getTodos textListStore).1 = .json (.str "abc") ∧
      (getTodos (addTodo textListStore sampleClock (.json (.obj buyMilk)))).1 =
        .json (.str "abc") :=
  ⟨rfl, rfl, rfl, rfl, rfl, rfl, rfl⟩

/-- C1 (amended): on every store whose medium serves reads and accepts writes and whose
document is readable with the array `xs` (or nothing) under the task-list key, `addTodo` of a
candidate with a string title makes `getTodos` return `xs` followed by exactly one new task,
whose title is the candidate's. -/
theorem addTodo_appends_one (s : Store) (xs : List Json) (clock : Clock) (c : Fields)
    (title : String) (hs : s.HoldsList xs) (ht : getField c "title" = some (.str title)) :
    (getTodos s).1 = .json (.arr xs) ∧
      ∃ task : Fields,
        (getTodos (addTodo s clock (.json (.obj c)))).1 = .json (.arr (xs ++ [.obj task])) ∧
          fieldVal task "title" = .json (.str title) := by
  refine ⟨(getTodos_of_holdsList s xs hs).1, newTodo clock (.json (.obj c)),
    addTodo_getTodos s xs clock c title hs ht, ?_⟩
  simp [fieldVal, newTodo_title, ht]

theorem sampleStore_holdsList : sampleStore.HoldsList [.obj taskFive, .obj taskNine] :=
  ⟨rfl, rfl, Or.inr ⟨_, rfl, Or.inl rfl⟩⟩

theorem addTodo_appends_one_witness :
    sampleStore.HoldsList [.obj taskFive, .obj taskNine] ∧
      getField buyMilk "title" = some (.str "Buy milk") ∧
      ((getTodos sampleStore).1 = .json (.arr [.obj taskFive, .obj taskNine]) ∧
        ∃ task : Fields,
          (getTodos (addTodo sampleStore sampleClock (.json (.obj buyMilk)))).1 =
              .json (.arr ([.obj taskFive, .obj taskNine] ++ [.obj task])) ∧
            fieldVal task "title" = .json (.str "Buy milk")) :=
  ⟨sampleStore_holdsList, rfl,
    addTodo_appends_one sampleStore _ sampleClock buyMilk "Buy milk" sampleStore_holdsList rfl⟩

/-- C2 (as stated, refuted): the candidate `{ title: "Buy milk" }` has a string title and no
completed field, and the task `addTodo` stores for it has no completed field either: reading
it gives `undefined`, which is not `false`. -/
theorem addTodo_completed_counterexample :
    getField buyMilk "title" = some (.str "Buy milk") ∧
      getField buyMilk "completed" = none ∧
      (getTodos (addTodo freshStore sampleClock (.json (.obj buyMilk)))).1 =
        .json (.arr [.obj [("id", .num 1700000000000), ("title", .str "Buy milk"),
          ("createdAt", .str "2023-11-14T22:13:20.000Z")]]) ∧
      fieldVal [("id", .num 1700000000000), ("title", .str "Buy milk"),
          ("createdAt", .str "2023-11-14T22:13:20.000Z")] "completed" = .undefined ∧
      strictEq (fieldVal [("id", .num 1700000000000), ("title", .str "Buy milk"),
          ("createdAt", .str "2023-11-14T22:13:20.000Z")] "completed")
        (.json (.bool false)) = false :=
  ⟨rfl, rfl, rfl, rfl, rfl⟩

/-- C2 (amended): on a readable store, the task `addTodo` stores for a candidate with a string
title carries the candidate's own completed entry and no default: with no completed field in
the candidate the stored task has none. -/
theorem addTodo_completed_copied (s : Store) (xs : List Json) (clock : Clock) (c : Fields)
    (title : String) (hs : s.HoldsList xs) (ht : getField c "title" = some (.str title)) :
    ∃ task : Fields,
      (getTodos (addTodo s clock (.json (.obj c)))).1 = .json (.arr (xs ++ [.obj task])) ∧
        getField task "completed" = getField c "completed" ∧
        (getField c "completed" = none → fieldVal task "completed" = .undefined) := by
  refine ⟨newTodo clock (.json (.obj c)), addTodo_getTodos s xs clock c title hs ht,
    newTodo_completed clock c, ?_⟩
  intro hn
  simp [fieldVal, newTodo_completed, hn]

theorem freshStore_holdsList : freshStore.HoldsList [] :=
  ⟨rfl, rfl, Or.inl ⟨Or.inl rfl, rfl⟩⟩

theorem addTodo_completed_copied_witness :
    freshStore.HoldsList [] ∧ getField buyMilk "title" = some (.str "Buy milk") ∧
      ∃ task : Fields,
        (getTodos (addTodo freshStore sampleClock (.json (.obj buyMilk)))).1 =
            .json (.arr ([] ++ [.obj task])) ∧
          getField task "completed" = getField buyMilk "completed" ∧
          (getField buyMilk "completed" = none → fieldVal task "completed" = .undefined) :=
  ⟨freshStore_holdsList, rfl,
    addTodo_completed_copied freshStore [] sampleClock buyMilk "Buy milk" freshStore_holdsList rfl⟩

/-- C3 (as stated, refuted): the candidate `{ title: "Buy milk", id: 7 }` is stored with id 7,
not with the clock reading 1700000000000 of the call. -/
theorem addTodo_id_counterexample :
    getField buyMilkWithId "title" = some (.str "Buy milk") ∧
      (getTodos (addTodo freshStore sampleClock (.json (.obj buyMilkWithId)))).1 =
        .json (.arr [.obj [("id", .num 7), ("title", .str "Buy milk"),
          ("createdAt", .str "2023-11-14T22:13:20.000Z")]]) ∧
      strictEq (fieldVal [("id", .num 7), ("title", .str "Buy milk"),
          ("createdAt", .str "2023-11-14T22:13:20.000Z")] "id")
        (.json (.num sampleClock.now)) = false :=
  ⟨rfl, rfl, rfl⟩

/-- C3 (amended): on a readable store, the task `addTodo` stores for a candidate with a string
title has createdAt equal to the ISO reading of the clock whatever the candidate carries, and
id equal to the candidate's own id when it has one, to the millisecond reading otherwise. -/
theorem addTodo_stamps (s : Store) (xs : List Json) (clock : Clock) (c : Fields)
    (title : String) (hs : s.HoldsList xs) (ht : getField c "title" = some (.str title)) :
    ∃ task : Fields,
      (getTodos (addTodo s clock (.json (.obj c)))).1 = .json (.arr (xs ++ [.obj task])) ∧
        getField task "createdAt" = some (.str clock.iso) ∧
        getField task "id" = some ((getField c "id").getD (.num clock.now)) ∧
        (getField c "id" = none → getField task "id" = some (.num clock.now)) := by
  refine ⟨newTodo clock (.json (.obj c)), addTodo_getTodos s xs clock c title hs ht,
    newTodo_createdAt clock _, newTodo_id clock c, ?_⟩
  intro hn
  rw [newTodo_id, hn]
  rfl

theorem addTodo_stamps_witness :
    freshStore.HoldsList [] ∧ getField buyMilkWithId "title" = some (.str "Buy milk") ∧
      ∃ task : Fields,
        (getTodos (addTodo freshStore sampleClock (.json (.obj buyMilkWithId)))).1 =
            .json (.arr ([] ++ [.obj task])) ∧
          getField task "createdAt" = some (.str sampleClock.iso) ∧
          getField task "id" =
            some ((getField buyMilkWithId "id").getD (.num sampleClock.now)) ∧
          (getField buyMilkWithId "id" = none →
            getField task "id" = some (.num sampleClock.now)) :=
  ⟨freshStore_holdsList, rfl,
    addTodo_stamps freshStore [] sampleClock buyMilkWithId "Buy milk" freshStore_holdsList rfl⟩

/-! ## Entries: erasing -/

theorem eraseField_cons (kv : String × Json) (rest : Fields) (k : String) :
    eraseField (kv :: rest) k =
      if kv.1 = k then eraseField rest k else kv :: eraseField rest k := by
  by_cases h : kv.1 = k <;> simp [eraseField, List.filter_cons, h]

theorem getField_eraseField_same (f : Fields) (k : String) :
    getField (eraseField f k) k = none := by
  induction f with
  | nil => rfl
  | cons kv rest ih =>
    rw [eraseField_cons]
    by_cases h : kv.1 = k
    · rw [if_pos h, ih]
    · rw [if_neg h, getField_cons, ih]
      simp [h]

theorem getField_eraseField_other (f : Fields) (k key : String) (h : key ≠ k) :
    getField (eraseField f k) key = getField f key := by
  induction f with
  | nil => rfl
  | cons kv rest ih =>
    rw [eraseField_cons, getField_cons]
    by_cases hk : kv.1 = k
    · have : ¬ kv.1 = key := fun e => h (e.symm.trans hk)
      rw [if_pos hk, ih]
      cases getField rest key <;> simp [this]
    · rw [if_neg hk, getField_cons, ih]

theorem getField_mergeFields (t other : Fields) (key : String) :
    getField (mergeFields t other) key =
      match getField other key with
      | some v => some v
      | none => getField t key := by
  unfold mergeFields
  rw [getField_spread, getField_spread]
  cases getField other key with
  | some v => rfl
  | none => cases getField t key <;> rfl

/-! ## Strict equality against a number or a string -/

theorem strictEq_num_iff (v : Val) (q : ℚ) :
    strictEq v (.json (.num q)) = true ↔ v = .json (.num q) := by
  cases v with
  | undefined => simp [strictEq]
  | nan => simp [strictEq]
  | json j => cases j <;> simp [strictEq]

theorem strictEq_str_iff (v : Val) (a : String) :
    strictEq v (.json (.str a)) = true ↔ v = .json (.str a) := by
  cases v with
  | undefined => simp [strictEq]
  | nan => simp [strictEq]
  | json j => cases j <;> simp [strictEq]

theorem getProp_obj (t : Fields) (key : String) :
    (Json.obj t).getProp key = .ok (fieldVal t key) := by
  simp only [Json.getProp, fieldVal]
  cases getField t key <;> rfl

/-! ## `updateTodo`: the mapping callback -/

theorem updateEach_records (id : Val) (f : Fields) (ts : List Fields) (b : Bool)
    (hf : eraseField f "id" ≠ []) :
    updateEach id (.json (.obj f)) (ts.map Json.obj) b =
      .ok ((ts.map (updateStep id (eraseField f "id"))).map Json.obj,
        b || ts.any (matchesId id)) := by
  induction ts generalizing b with
  | nil => simp [updateEach]
  | cons t rest ih =>
    have hlen : ¬ (eraseField f "id").length = 0 := by
      intro h0
      exact hf (List.length_eq_zero.mp h0)
    rw [List.map_cons, updateEach, getProp_obj]
    by_cases hm : matchesId id t = true
    · have hm2 : strictEq (fieldVal t "id") id = true := hm
      simp only [hm2, if_true, restWithoutId, Val.ownEntries, hlen, if_false, ih true]
      simp [updateStep, hm, mergeFields]
    · have hm2 : ¬ strictEq (fieldVal t "id") id = true := hm
      simp only [hm2, if_false, ih b]
      simp [updateStep, hm]

theorem updateEach_no_match (id updatedFields : Val) (xs : List Json) (b : Bool)
    (h : ∀ x ∈ xs, carriesId id x = false) :
    (∃ e, updateEach id updatedFields xs b = .error e) ∨
      updateEach id updatedFields xs b = .ok (xs, b) := by
  induction xs generalizing b with
  | nil => exact Or.inr rfl
  | cons x rest ih =>
    have hx : carriesId id x = false := h x (List.mem_cons_self _ _)
    have hrest : ∀ y ∈ rest, carriesId id y = false :=
      fun y hy => h y (List.mem_cons_of_mem _ hy)
    rw [updateEach]
    cases hp : x.getProp "id" with
    | error e => exact Or.inl ⟨e, rfl⟩
    | ok tid =>
      have hne : strictEq tid id = false := by
        simpa [carriesId, hp] using hx
      simp only [hne, Bool.false_eq_true, if_false]
      rcases ih b hrest with ⟨e, he⟩ | hok
      · rw [he]
        exact Or.inl ⟨e, rfl⟩
      · rw [hok]
        exact Or.inr rfl

theorem updateEach_nothing_to_merge (id : Val) (f : Fields) (ts : List Fields) (b : Bool)
    (hf : eraseField f "id" = []) :
    (∃ e, updateEach id (.json (.obj f)) (ts.map Json.obj) b = .error e) ∨
      updateEach id (.json (.obj f)) (ts.map Json.obj) b = .ok (ts.map Json.obj, b) := by
  induction ts generalizing b with
  | nil => exact Or.inr rfl
  | cons t rest ih =>
    rw [List.map_cons, updateEach, getProp_obj]
    by_cases hm : strictEq (fieldVal t "id") id = true
    · simp only [hm, if_true, restWithoutId, Val.ownEntries, hf, List.length_nil]
      exact Or.inl ⟨_, rfl⟩
    · simp only [hm, if_false]
      rcases ih b with ⟨e, he⟩ | hok
      · rw [he]
        exact Or.inl ⟨e, rfl⟩
      · rw [hok]
        exact Or.inr rfl

/-! ## `getTodos` read twice -/

theorem getTodos_json (v : Json) (w : Bool) :
    (getTodos ⟨some (.json v), true, w⟩).2 = ⟨some (.json v), true, w⟩ := by
  simp only [getTodos, getDB, Store.getItem, dataTruthy, jsonParse, if_true]
  cases v.getProp todoKey <;> rfl

theorem getTodos_state (s : Store) :
    (getTodos s).2 = s ∨
      getTodos s = (.json (.arr []), ⟨some (.json (.obj [])), true, true⟩) := by
  obtain ⟨item, r, w⟩ := s
  cases r with
  | false => exact Or.inl rfl
  | true =>
    cases item with
    | none => cases w <;> first | exact Or.inl rfl | exact Or.inr rfl
    | some st =>
      cases st with
      | empty => cases w <;> first | exact Or.inl rfl | exact Or.inr rfl
      | corrupt => exact Or.inl rfl
      | json v => exact Or.inl (getTodos_json v w)

theorem getTodos_idem (s : Store) : (getTodos (getTodos s).2).1 = (getTodos s).1 := by
  rcases getTodos_state s with h | h
  · rw [h]
  · rw [h]
    rfl

/-! ## `updateTodo`: failure leaves the list as it was -/

theorem updateTodo_failed_state (s : Store) (id updatedFields : Val)
    (h : (updateTodo s id updatedFields).1 = false) :
    (updateTodo s id updatedFields).2 = s ∨
      (updateTodo s id updatedFields).2 = (getTodos s).2 := by
  unfold updateTodo at h ⊢
  cases hb : updateTodoBody s id updatedFields with
  | mk res s1 =>
    rw [hb] at h
    cases res with
    | ok s2 => simp at h
    | error e =>
      simp only
      unfold updateTodoBody at hb
      split at hb
      · left
        exact (Prod.mk.inj hb).2.symm
      · right
        split at hb
        · rename_i xs s3 hg
          rw [hg]
          split at hb
          · exact (Prod.mk.inj hb).2.symm
          · split at hb
            · exact (Prod.mk.inj hb).2.symm
            · exact (Prod.mk.inj hb).2.symm
        · rename_i s3 _ hg
          rw [hg]
          exact (Prod.mk.inj hb).2.symm

theorem updateTodo_failed_unchanged (s : Store) (id updatedFields : Val)
    (h : (updateTodo s id updatedFields).1 = false) :
    (getTodos (updateTodo s id updatedFields).2).1 = (getTodos s).1 := by
  rcases updateTodo_failed_state s id updatedFields h with h1 | h1
  · rw [h1]
  · rw [h1]
    exact getTodos_idem s

/-! ## `updateTodo` on a readable store -/

theorem updateTodo_of_holds (s : Store) (ts : List Fields) (q : ℚ) (f : Fields)
    (hs : s.Holds ts) (hq : q ≠ 0) (hc : ts.any (matchesId (.json (.num q))) = true)
    (hf : eraseField f "id" ≠ []) :
    (updateTodo s (.json (.num q)) (.json (.obj f))).1 = true ∧
      (getTodos (updateTodo s (.json (.num q)) (.json (.obj f))).2).1 =
        .json (.arr ((ts.map (updateStep (.json (.num q)) (eraseField f "id"))).map Json.obj)) := by
  obtain ⟨h1, h2⟩ := getTodos_of_holdsList s _ hs
  have hguard : (!(Val.json (Json.num q)).truthy || !(Val.json (Json.num q)).isNumber) = false := by
    simp [Val.truthy, Json.truthy, Val.isNumber, hq]
  cases hg : getTodos s with
  | mk todos s1 =>
    rw [hg] at h1 h2
    simp only at h1 h2
    subst h1
    have hbody : updateTodoBody s (.json (.num q)) (.json (.obj f)) =
        (.ok (saveTodos s1 (.json (.arr
          ((ts.map (updateStep (.json (.num q)) (eraseField f "id"))).map Json.obj)))), s1) := by
      unfold updateTodoBody
      rw [hguard, hg]
      simp only [Bool.false_eq_true, if_false, updateEach_records _ f ts false hf, hc,
        Bool.false_or, Bool.not_true]
    unfold updateTodo
    rw [hbody]
    exact ⟨rfl, getTodos_saveTodos s1 _ _ h2⟩

theorem storedTasks_of_getTodos (s s1 : Store) (xs : List Json)
    (hg : getTodos s = (.json (.arr xs), s1)) : storedTasks s = xs := by
  simp [storedTasks, hg]

theorem updateTodoBody_not_carried (s : Store) (id updatedFields : Val)
    (h : ∀ x ∈ storedTasks s, carriesId id x = false) :
    ∃ e s1, updateTodoBody s id updatedFields = (.error e, s1) := by
  unfold updateTodoBody
  by_cases hguard : (!id.truthy || !id.isNumber) = true
  · rw [if_pos hguard]
    exact ⟨_, _, rfl⟩
  · rw [if_neg hguard]
    cases hg : getTodos s with
    | mk todos s1 =>
      cases todos with
      | undefined => exact ⟨_, _, rfl⟩
      | nan => exact ⟨_, _, rfl⟩
      | json j =>
        cases j with
        | arr xs =>
          rw [storedTasks_of_getTodos s s1 xs hg] at h
          simp only
          rcases updateEach_no_match id updatedFields xs false h with ⟨e, he⟩ | hok
          · rw [he]
            exact ⟨_, _, rfl⟩
          · rw [hok]
            exact ⟨_, _, rfl⟩
        | null => exact ⟨_, _, rfl⟩
        | bool b => exact ⟨_, _, rfl⟩
        | num q => exact ⟨_, _, rfl⟩
        | str a => exact ⟨_, _, rfl⟩
        | obj kvs => exact ⟨_, _, rfl⟩

theorem updateTodo_not_carried (s : Store) (id updatedFields : Val)
    (h : ∀ x ∈ storedTasks s, carriesId id x = false) :
    (updateTodo s id updatedFields).1 = false := by
  obtain ⟨e, s1, hb⟩ := updateTodoBody_not_carried s id updatedFields h
  unfold updateTodo
  rw [hb]

theorem carriesId_obj (id : Val) (t : Fields) :
    carriesId id (.obj t) = matchesId id t := by
  simp [carriesId, getProp_obj, matchesId]

theorem storedTasks_of_holds (s : Store) (ts : List Fields) (hs : s.Holds ts) :
    storedTasks s = ts.map Json.obj := by
  have h1 := (getTodos_of_holdsList s _ hs).1
  simp [storedTasks, h1]

theorem updateTodo_nothing_to_merge (s : Store) (ts : List Fields) (id : Val) (f : Fields)
    (hs : s.Holds ts) (hf : eraseField f "id" = []) :
    (updateTodo s id (.json (.obj f))).1 = false := by
  obtain ⟨h1, _⟩ := getTodos_of_holdsList s _ hs
  unfold updateTodo updateTodoBody
  by_cases hguard : (!id.truthy || !id.isNumber) = true
  · rw [if_pos hguard]
  · rw [if_neg hguard]
    cases hg : getTodos s with
    | mk todos s1 =>
      rw [hg] at h1
      simp only at h1
      subst h1
      simp only
      rcases updateEach_nothing_to_merge id f ts false hf with ⟨e, he⟩ | hok
      · rw [he]
      · rw [hok]
        rfl

theorem updateStep_spec (q : ℚ) (f : Fields) (t : Fields) :
    (fieldVal t "id" ≠ .json (.num q) → updateStep (.json (.num q)) (eraseField f "id") t = t) ∧
      (fieldVal t "id" = .json (.num q) →
        ∀ key, getField (updateStep (.json (.num q)) (eraseField f "id") t) key =
          match getField (eraseField f "id") key with
          | some v => some v
          | none => getField t key) := by
  constructor
  · intro hne
    have : matchesId (.json (.num q)) t = false := by
      rw [Bool.eq_false_iff]
      intro hm
      exact hne ((strictEq_num_iff _ _).mp hm)
    simp [updateStep, this]
  · intro he key
    have : matchesId (.json (.num q)) t = true := (strictEq_num_iff _ _).mpr he
    simp only [updateStep, this, if_true]
    exact getField_mergeFields t _ key

theorem forall₂_map_self {α : Type} (R : α → α → Prop) (g : α → α) (l : List α)
    (h : ∀ a ∈ l, R a (g a)) : List.Forall₂ R l (l.map g) := by
  induction l with
  | nil => exact List.Forall₂.nil
  | cons a rest ih =>
    exact List.Forall₂.cons (h a (List.mem_cons_self _ _))
      (ih (fun b hb => h b (List.mem_cons_of_mem _ hb)))

/-- C4 (as stated, refuted): for the id 0, carried by the stored task `taskZero`, and the
fields `{ completed: true }`, `updateTodo` returns false; and over a medium that rejects
writes `updateTodo(5, { completed: true })` returns true although the task with id 5 is read
back unchanged, its completed still false; and when the stored list has a `null` element
before the task with id 5, `updateTodo(5, { completed: true })` returns false. -/
theorem updateTodo_not_merged_counterexample :
    carriesId (.json (.num 0)) (.obj taskZero) = true ∧
      (eraseField [("completed", Json.bool true)] "id").length = 1 ∧
      (updateTodo zeroIdStore (.json (.num 0)) (.json (.obj [("completed", .bool true)]))).1 =
        false ∧
      carriesId (.json (.num 5)) (.obj taskFive) = true ∧
      (getTodos readOnlyStore).1 = .json (.arr [.obj taskFive]) ∧
      (updateTodo readOnlyStore (.json (.num 5)) (.json (.obj [("completed", .bool true)]))).1 =
        true ∧
      (getTodos (updateTodo readOnlyStore (.json (.num 5))
        (.json (.obj [("completed", .bool true)]))).2).1 = .json (.arr [.obj taskFive]) ∧
      fieldVal taskFive "completed" = .json (.bool false) ∧
      (getTodos nullElementStore).1 = .json (.arr [.null, .obj taskFive]) ∧
      (updateTodo nullElementStore (.json (.num 5))
        (.json (.obj [("completed", .bool true)]))).1 = false :=
  ⟨rfl, rfl, rfl, rfl, rfl, rfl, rfl, rfl, rfl, rfl⟩

/-- C4 (amended): on every store whose medium serves reads and accepts writes and whose
document is readable with the task records `ts`, for an id that is a number other than zero
and that some stored task carries, and fields that are non-empty without their id key,
`updateTodo` returns true; afterwards `getTodos` returns a list of the same length, aligned
with `ts` position by position, in which a task with another id is unchanged and a matching
task keeps its id and holds, under every other key of fields, the value fields gives. -/
theorem updateTodo_merges_fields (s : Store) (ts : List Fields) (q : ℚ) (f : Fields)
    (hs : s.Holds ts) (hq : q ≠ 0)
    (hc : ∃ t ∈ ts, fieldVal t "id" = .json (.num q))
    (hf : eraseField f "id" ≠ []) :
    (getTodos s).1 = .json (.arr (ts.map Json.obj)) ∧
      (updateTodo s (.json (.num q)) (.json (.obj f))).1 = true ∧
      ∃ ts1 : List Fields,
        (getTodos (updateTodo s (.json (.num q)) (.json (.obj f))).2).1 =
            .json (.arr (ts1.map Json.obj)) ∧
          ts1.length = ts.length ∧ List.Forall₂ (UpdatedAs q f) ts ts1 := by
  have hany : ts.any (matchesId (.json (.num q))) = true := by
    obtain ⟨t, ht, hid⟩ := hc
    exact List.any_eq_true.mpr ⟨t, ht, (strictEq_num_iff _ _).mpr hid⟩
  obtain ⟨htrue, hlist⟩ := updateTodo_of_holds s ts q f hs hq hany hf
  refine ⟨(getTodos_of_holdsList s _ hs).1, htrue,
    ts.map (updateStep (.json (.num q)) (eraseField f "id")), hlist, by simp, ?_⟩
  apply forall₂_map_self
  intro t _
  obtain ⟨h1, h2⟩ := updateStep_spec q f t
  refine ⟨h1, fun he => ⟨?_, ?_⟩⟩
  · rw [h2 he "id", getField_eraseField_same]
  · intro key v hk hv
    rw [h2 he key, getField_eraseField_other f "id" key hk, hv]

theorem sampleStore_holds : sampleStore.Holds [taskFive, taskNine] :=
  ⟨rfl, rfl, Or.inr ⟨_, rfl, Or.inl rfl⟩⟩

theorem updateTodo_merges_fields_witness :
    sampleStore.Holds [taskFive, taskNine] ∧ (5 : ℚ) ≠ 0 ∧
      (∃ t ∈ [taskFive, taskNine], fieldVal t "id" = .json (.num 5)) ∧
      eraseField [("completed", .bool true)] "id" ≠ [] ∧
      ((getTodos sampleStore).1 = .json (.arr ([taskFive, taskNine].map Json.obj)) ∧
        (updateTodo sampleStore (.json (.num 5))
          (.json (.obj [("completed", .bool true)]))).1 = true ∧
        ∃ ts1 : List Fields,
          (getTodos (updateTodo sampleStore (.json (.num 5))
            (.json (.obj [("completed", .bool true)]))).2).1 = .json (.arr (ts1.map Json.obj)) ∧
            ts1.length = [taskFive, taskNine].length ∧
            List.Forall₂ (UpdatedAs 5 [("completed", .bool true)]) [taskFive, taskNine] ts1) :=
  ⟨sampleStore_holds, by norm_num, ⟨taskFive, by simp, rfl⟩, by simp [eraseField],
    updateTodo_merges_fields sampleStore [taskFive, taskNine] 5 [("completed", .bool true)]
      sampleStore_holds (by norm_num) ⟨taskFive, by simp, rfl⟩ (by simp [eraseField])⟩

/-- C5 (as stated, refuted): on the sample store, `updateTodo(5, { createdAt: "1999-..." })`
returns true and the task with id 5, created at 2023-11-14T08:00, now has the createdAt of
the payload. -/
theorem updateTodo_createdAt_counterexample :
    fieldVal taskFive "id" = .json (.num 5) ∧
      fieldVal taskFive "createdAt" = .json (.str "2023-11-14T08:00:00.000Z") ∧
      (updateTodo sampleStore (.json (.num 5))
        (.json (.obj [("createdAt", .str "1999-01-01T00:00:00.000Z")]))).1 = true ∧
      (getTodos (updateTodo sampleStore (.json (.num 5))
        (.json (.obj [("createdAt", .str "1999-01-01T00:00:00.000Z")]))).2).1 =
        .json (.arr [.obj [("id", .num 5), ("title", .str "Walk the dog"),
          ("completed", .bool false), ("createdAt", .str "1999-01-01T00:00:00.000Z")],
          .obj taskNine]) :=
  ⟨rfl, rfl, rfl, rfl⟩

/-- C5 (amended): on a readable store with task records `ts` and for an id that is a number
other than zero, after `updateTodo(id, fields)` the list is aligned with `ts` and a matching
task's createdAt is the createdAt entry of fields when fields has one, and is unchanged when
fields has none. -/
theorem updateTodo_createdAt (s : Store) (ts : List Fields) (q : ℚ) (f : Fields)
    (hs : s.Holds ts) (hq : q ≠ 0) :
    ∃ ts1 : List Fields,
      (getTodos (updateTodo s (.json (.num q)) (.json (.obj f))).2).1 =
          .json (.arr (ts1.map Json.obj)) ∧
        List.Forall₂
          (fun t t1 =>
            fieldVal t "id" = .json (.num q) →
              getField t1 "createdAt" =
                match getField f "createdAt" with
                | some v => some v
                | none => getField t "createdAt")
          ts ts1 := by
  by_cases hany : ts.any (matchesId (.json (.num q))) = true
  · by_cases hf : eraseField f "id" = []
    · refine ⟨ts, ?_, ?_⟩
      · rw [updateTodo_failed_unchanged s _ _ (updateTodo_nothing_to_merge s ts _ f hs hf)]
        exact (getTodos_of_holdsList s _ hs).1
      · rw [List.forall₂_same]
        intro t _ _
        have hnone : getField f "createdAt" = none := by
          rw [← getField_eraseField_other f "id" "createdAt" (by decide), hf]
          rfl
        rw [hnone]
    · refine ⟨ts.map (updateStep (.json (.num q)) (eraseField f "id")),
        (updateTodo_of_holds s ts q f hs hq hany hf).2, ?_⟩
      apply forall₂_map_self
      intro t _ he
      rw [(updateStep_spec q f t).2 he "createdAt",
        getField_eraseField_other f "id" "createdAt" (by decide)]
  · have hnot : ∀ x ∈ storedTasks s, carriesId (.json (.num q)) x = false := by
      rw [storedTasks_of_holds s ts hs]
      intro x hx
      obtain ⟨t, ht, rfl⟩ := List.mem_map.mp hx
      rw [carriesId_obj, Bool.eq_false_iff]
      intro hm
      exact hany (List.any_eq_true.mpr ⟨t, ht, hm⟩)
    refine ⟨ts, ?_, ?_⟩
    · rw [updateTodo_failed_unchanged s _ _ (updateTodo_not_carried s _ _ hnot)]
      exact (getTodos_of_holdsList s _ hs).1
    · rw [List.forall₂_same]
      intro t ht he
      exact absurd (List.any_eq_true.mpr ⟨t, ht, (strictEq_num_iff _ _).mpr he⟩) hany

theorem updateTodo_createdAt_witness :
    sampleStore.Holds [taskFive, taskNine] ∧ (5 : ℚ) ≠ 0 ∧
      ∃ ts1 : List Fields,
        (getTodos (updateTodo sampleStore (.json (.num 5))
          (.json (.obj [("createdAt", .str "1999-01-01T00:00:00.000Z")]))).2).1 =
            .json (.arr (ts1.map Json.obj)) ∧
          List.Forall₂
            (fun t t1 =>
              fieldVal t "id" = .json (.num 5) →
                getField t1 "createdAt" =
                  match getField [("createdAt", Json.str "1999-01-01T00:00:00.000Z")]
                    "createdAt" with
                  | some v => some v
                  | none => getField t "createdAt")
            [taskFive, taskNine] ts1 :=
  ⟨sampleStore_holds, by norm_num,
    updateTodo_createdAt sampleStore [taskFive, taskNine] 5
      [("createdAt", .str "1999-01-01T00:00:00.000Z")] sampleStore_holds (by norm_num)⟩

/-- C6: for every store state, every id that no stored task carries and every fields value,
`updateTodo` returns false and `getTodos` afterwards returns what it returned before. -/
theorem updateTodo_unknown_id (s : Store) (id updatedFields : Val)
    (h : ∀ x ∈ storedTasks s, carriesId id x = false) :
    (updateTodo s id updatedFields).1 = false ∧
      (getTodos (updateTodo s id updatedFields).2).1 = (getTodos s).1 :=
  ⟨updateTodo_not_carried s id updatedFields h,
    updateTodo_failed_unchanged s id updatedFields (updateTodo_not_carried s id updatedFields h)⟩

theorem updateTodo_unknown_id_witness :
    (∀ x ∈ storedTasks sampleStore, carriesId (.json (.num 42)) x = false) ∧
      (updateTodo sampleStore (.json (.num 42)) (.json (.obj [("completed", .bool true)]))).1 =
        false ∧
      (getTodos (updateTodo sampleStore (.json (.num 42))
        (.json (.obj [("completed", .bool true)]))).2).1 = (getTodos sampleStore).1 :=
  ⟨by decide,
    updateTodo_unknown_id sampleStore (.json (.num 42)) (.json (.obj [("completed", .bool true)]))
      (by decide)⟩

/-- C7 (as stated, refuted): a negative id and a fractional id pass the guard: on a store
whose tasks carry the ids -1 and 1/2, `updateTodo(-1, { completed: true })` and
`updateTodo(1/2, { completed: true })` return true and change the stored task. -/
theorem updateTodo_negative_id_counterexample :
    (updateTodo oddIdStore (.json (.num (-1))) (.json (.obj [("completed", .bool true)]))).1 =
        true ∧
      (getTodos (updateTodo oddIdStore (.json (.num (-1)))
        (.json (.obj [("completed", .bool true)]))).2).1 =
        .json (.arr [.obj [("id", .num (-1)), ("title", .str "Call mum"),
          ("completed", .bool true), ("createdAt", .str "2023-11-14T10:00:00.000Z")],
          .obj taskHalf]) ∧
      (getTodos oddIdStore).1 = .json (.arr [.obj taskMinusOne, .obj taskHalf]) ∧
      fieldVal taskMinusOne "completed" = .json (.bool false) ∧
      (updateTodo oddIdStore (.json (.num (mkRat 1 2))) (.json (.obj [("completed", .bool true)]))).1 =
        true :=
  ⟨rfl, rfl, rfl, rfl, rfl⟩

/-- C7 (amended): for every store state and every fields value, if id is falsy (zero, `NaN`,
`null`, `undefined`, `false`, the empty string) or is not of type number, `updateTodo`
returns false and leaves the store, hence what `getTodos` returns, unchanged, also when a
stored task carries that very id. -/
theorem updateTodo_rejects_id (s : Store) (id updatedFields : Val)
    (h : id.truthy = false ∨ id.isNumber = false) :
    updateTodo s id updatedFields = (false, s) ∧
      (getTodos (updateTodo s id updatedFields).2).1 = (getTodos s).1 := by
  have hguard : (!id.truthy || !id.isNumber) = true := by
    rcases h with h | h <;> simp [h]
  have hu : updateTodo s id updatedFields = (false, s) := by
    unfold updateTodo updateTodoBody
    rw [if_pos hguard]
  exact ⟨hu, by rw [hu]⟩

theorem updateTodo_rejects_id_witness :
    ((Val.json (.num 0)).truthy = false ∨ (Val.json (.num 0)).isNumber = false) ∧
      carriesId (.json (.num 0)) (.obj taskZero) = true ∧
      (updateTodo zeroIdStore (.json (.num 0)) (.json (.obj [("completed", .bool true)])) =
          (false, zeroIdStore) ∧
        (getTodos (updateTodo zeroIdStore (.json (.num 0))
          (.json (.obj [("completed", .bool true)]))).2).1 = (getTodos zeroIdStore).1) :=
  ⟨Or.inl (by decide), by decide,
    updateTodo_rejects_id zeroIdStore (.json (.num 0)) (.json (.obj [("completed", .bool true)]))
      (Or.inl (by decide))⟩

/-! ## `removeTodo` -/

theorem removeEach_records (id : Val) (ts : List Fields) :
    removeEach id (ts.map Json.obj) =
      .ok ((ts.filter (fun t => !matchesId id t)).map Json.obj) := by
  induction ts with
  | nil => rfl
  | cons t rest ih =>
    rw [List.map_cons, removeEach, getProp_obj]
    simp only [ih]
    by_cases hm : matchesId id t = true
    · have hm2 : strictEq (fieldVal t "id") id = true := hm
      simp [hm, hm2]
    · rw [Bool.not_eq_true] at hm
      have hm2 : strictEq (fieldVal t "id") id = false := hm
      simp [hm, hm2]

theorem removeTodo_of_holds (s : Store) (ts : List Fields) (id : Val) (hs : s.Holds ts) :
    (removeTodo s id).Holds (ts.filter (fun t => !matchesId id t)) := by
  obtain ⟨h1, h2⟩ := getTodos_of_holdsList s _ hs
  unfold removeTodo
  cases hg : getTodos s with
  | mk todos s1 =>
    rw [hg] at h1 h2
    simp only at h1 h2
    subst h1
    simp only [removeEach_records]
    exact saveTodos_of_holdsList s1 _ _ h2

/-- C8 (as stated, refuted): over a medium that rejects writes, and on a store whose list has
a `null` element before the task with id 5, `removeTodo(5)` removes nothing: the task with
id 5 is still returned by `getTodos`. -/
theorem removeTodo_not_removed_counterexample :
    (getTodos readOnlyStore).1 = .json (.arr [.obj taskFive]) ∧
      matchesId (.json (.num 5)) taskFive = true ∧
      (getTodos (removeTodo readOnlyStore (.json (.num 5)))).1 =
        .json (.arr [.obj taskFive]) ∧
      (getTodos nullElementStore).1 = .json (.arr [.null, .obj taskFive]) ∧
      (getTodos (removeTodo nullElementStore (.json (.num 5)))).1 =
        .json (.arr [.null, .obj taskFive]) :=
  ⟨rfl, rfl, rfl, rfl, rfl⟩

/-- C8 (amended): on every store whose medium serves reads and accepts writes and whose
document is readable with the task records `ts`, after `removeTodo(id)` `getTodos` returns
`ts` without the tasks whose id is strictly equal to `id`, the others in their original order;
when no task has that id the list is unchanged; and a second `removeTodo(id)` leaves the list
as the first one made it. -/
theorem removeTodo_removes_matching (s : Store) (ts : List Fields) (id : Val)
    (hs : s.Holds ts) :
    (getTodos s).1 = .json (.arr (ts.map Json.obj)) ∧
      (getTodos (removeTodo s id)).1 =
        .json (.arr ((ts.filter (fun t => !matchesId id t)).map Json.obj)) ∧
      ((∀ t ∈ ts, matchesId id t = false) →
        (getTodos (removeTodo s id)).1 = (getTodos s).1) ∧
      (getTodos (removeTodo (removeTodo s id) id)).1 = (getTodos (removeTodo s id)).1 := by
  have hbefore := (getTodos_of_holdsList s _ hs).1
  have h1 := removeTodo_of_holds s ts id hs
  have hafter := (getTodos_of_holdsList _ _ h1).1
  have h2 := removeTodo_of_holds _ _ id h1
  have htwice := (getTodos_of_holdsList _ _ h2).1
  refine ⟨hbefore, hafter, ?_, ?_⟩
  · intro hnone
    rw [hafter, hbefore]
    have : ts.filter (fun t => !matchesId id t) = ts := by
      apply List.filter_eq_self.mpr
      intro t ht
      simp [hnone t ht]
    rw [this]
  · rw [htwice, hafter, List.filter_filter]
    simp

theorem removeTodo_removes_matching_witness :
    sampleStore.Holds [taskFive, taskNine] ∧
      ((getTodos sampleStore).1 = .json (.arr ([taskFive, taskNine].map Json.obj)) ∧
        (getTodos (removeTodo sampleStore (.json (.num 5)))).1 =
          .json (.arr (([taskFive, taskNine].filter
            (fun t => !matchesId (.json (.num 5)) t)).map Json.obj)) ∧
        ((∀ t ∈ [taskFive, taskNine], matchesId (.json (.num 5)) t = false) →
          (getTodos (removeTodo sampleStore (.json (.num 5)))).1 = (getTodos sampleStore).1) ∧
        (getTodos (removeTodo (removeTodo sampleStore (.json (.num 5))) (.json (.num 5)))).1 =
          (getTodos (removeTodo sampleStore (.json (.num 5)))).1) :=
  ⟨sampleStore_holds,
    removeTodo_removes_matching sampleStore [taskFive, taskNine] (.json (.num 5))
      sampleStore_holds⟩

/-! ## `filterTodos` -/

theorem strictEq_completed (flag : Bool) (t : Fields) :
    strictEq (fieldVal t "completed") (.json (.bool flag)) = completedIs flag t := by
  unfold fieldVal completedIs
  cases getField t "completed" with
  | none => rfl
  | some v => cases v <;> rfl

theorem filterCompleted_records (flag : Bool) (ts : List Fields) :
    filterCompleted flag (ts.map Json.obj) =
      .ok ((ts.filter (completedIs flag)).map Json.obj) := by
  induction ts with
  | nil => rfl
  | cons t rest ih =>
    rw [List.map_cons, filterCompleted, getProp_obj]
    simp only [ih, strictEq_completed]
    by_cases hc : completedIs flag t = true
    · simp [hc]
    · rw [Bool.not_eq_true] at hc
      simp [hc]

theorem readsList_of_holdsList (s : Store) (xs : List Json) (h : s.HoldsList xs) :
    s.ReadsList xs := by
  obtain ⟨hr, hw, hc⟩ := h
  refine ⟨hr, ?_⟩
  rcases hc with ⟨hi, hx⟩ | hdoc
  · exact Or.inl ⟨hi, hw, hx⟩
  · exact Or.inr hdoc

theorem reads_of_holds (s : Store) (ts : List Fields) (h : s.Holds ts) : s.Reads ts :=
  readsList_of_holdsList s _ h

theorem getTodos_of_readsList (s : Store) (xs : List Json) (h : s.ReadsList xs) :
    (getTodos s).1 = .json (.arr xs) := by
  obtain ⟨item, r, w⟩ := s
  obtain ⟨hr, hc⟩ := h
  simp only at hr hc
  subst hr
  rcases hc with ⟨hi, hw, hx⟩ | ⟨doc, hi, hd⟩
  · subst hx hw
    rcases hi with hi | hi <;> subst hi <;> rfl
  · subst hi
    rw [getTodos_obj]
    rcases hd with hd | ⟨hd, hx⟩
    · simp [fieldVal, hd, Val.truthy, Json.truthy]
    · subst hx
      simp [fieldVal, hd, Val.truthy]

theorem filterTodosBody_no_sort (s : Store) (ts : List Fields) (filter ascending : Val)
    (hs : s.Reads ts) :
    (filterTodosBody s ⟨filter, none, ascending⟩).1 =
      if strictEq filter (.json (.str "completed")) then
        .ok (.json (.arr ((ts.filter (completedIs true)).map Json.obj)))
      else if strictEq filter (.json (.str "pending")) then
        .ok (.json (.arr ((ts.filter (completedIs false)).map Json.obj)))
      else if filter.truthy && !strictEq filter (.json (.str "all")) then
        .error (.userError invalidFilterMessage)
      else .ok (.json (.arr (ts.map Json.obj))) := by
  have h1 := getTodos_of_readsList s _ hs
  unfold filterTodosBody
  cases hg : getTodos s with
  | mk todos s1 =>
    rw [hg] at h1
    simp only at h1
    subst h1
    simp only [arrayFilterCompleted, filterCompleted_records]
    split_ifs <;> rfl

theorem filterTodos_of_body_ok (s : Store) (o : FilterOptions) (r : Val)
    (hb : (filterTodosBody s o).1 = .ok r) : (filterTodos s (.given o)).1 = .ok r := by
  cases hbody : filterTodosBody s o with
  | mk res s1 =>
    rw [hbody] at hb
    simp only at hb
    subst hb
    simp only [filterTodos, hbody]

theorem filterTodos_of_body_error (s : Store) (o : FilterOptions) (e : JsError)
    (hb : (filterTodosBody s o).1 = .error e) :
    (filterTodos s (.given o)).1 = .ok (.json (.arr [])) := by
  cases hbody : filterTodosBody s o with
  | mk res s1 =>
    rw [hbody] at hb
    simp only at hb
    subst hb
    simp only [filterTodos, hbody]

theorem filterTodos_absent (s : Store) :
    filterTodos s .absent = filterTodos s (.given ⟨.undefined, none, .undefined⟩) := rfl

/-- C9 (as stated, refuted): on a store whose list has a `null` element before the pending
task `taskFive`, `filterTodos` with filter "pending" returns the empty sequence, because
reading `completed` on `null` raises inside the `try` block; the stored task whose completed is
false is not returned.  And on a medium with nothing stored that rejects the initialising
write, `filterTodos` with filter "all" returns `undefined`. -/
theorem filterTodos_null_element_counterexample :
    (getTodos nullElementStore).1 = .json (.arr [.null, .obj taskFive]) ∧
      completedIs false taskFive = true ∧
      (filterTodosBody nullElementStore ⟨.json (.str "pending"), none, .undefined⟩).1 =
        .error .typeError ∧
      (filterTodos nullElementStore (.given ⟨.json (.str "pending"), none, .undefined⟩)).1 =
        .ok (.json (.arr [])) ∧
      (filterTodos lockedEmptyStore (.given ⟨.json (.str "all"), none, .undefined⟩)).1 =
        .ok .undefined :=
  ⟨rfl, rfl, rfl, rfl, rfl⟩

/-- C9 (amended): on every store whose document can be read and holds the task records `ts`
(the medium may reject writes once a document is stored) and with no sort key, `filterTodos`
with filter "pending" returns exactly the tasks whose completed is false, with filter
"completed" exactly those whose completed is true, both in stored order, and with filter
"all", with no filter, or called without an argument it returns the whole list. -/
theorem filterTodos_by_status (s : Store) (ts : List Fields) (ascending : Val)
    (hs : s.Reads ts) :
    (getTodos s).1 = .json (.arr (ts.map Json.obj)) ∧
      (filterTodos s (.given ⟨.json (.str "pending"), none, ascending⟩)).1 =
        .ok (.json (.arr ((ts.filter (completedIs false)).map Json.obj))) ∧
      (filterTodos s (.given ⟨.json (.str "completed"), none, ascending⟩)).1 =
        .ok (.json (.arr ((ts.filter (completedIs true)).map Json.obj))) ∧
      (filterTodos s (.given ⟨.json (.str "all"), none, ascending⟩)).1 =
        .ok (.json (.arr (ts.map Json.obj))) ∧
      (filterTodos s (.given ⟨.undefined, none, ascending⟩)).1 =
        .ok (.json (.arr (ts.map Json.obj))) ∧
      (filterTodos s .absent).1 = .ok (.json (.arr (ts.map Json.obj))) := by
  have key : ∀ (filter asc : Val) (r : Val),
      (filterTodosBody s ⟨filter, none, asc⟩).1 = .ok r →
        (filterTodos s (.given ⟨filter, none, asc⟩)).1 = .ok r :=
    fun filter asc r hb => filterTodos_of_body_ok s _ r hb
  refine ⟨getTodos_of_readsList s _ hs, key _ _ _ ?_, key _ _ _ ?_, key _ _ _ ?_,
    key _ _ _ ?_, ?_⟩
  · rw [filterTodosBody_no_sort s ts _ _ hs]
    rfl
  · rw [filterTodosBody_no_sort s ts _ _ hs]
    rfl
  · rw [filterTodosBody_no_sort s ts _ _ hs]
    rfl
  · rw [filterTodosBody_no_sort s ts _ _ hs]
    rfl
  · rw [filterTodos_absent]
    apply key
    rw [filterTodosBody_no_sort s ts _ _ hs]
    rfl

theorem readOnlyStore_reads : readOnlyStore.Reads [taskFive] :=
  ⟨rfl, Or.inr ⟨_, rfl, Or.inl rfl⟩⟩

theorem filterTodos_by_status_witness :
    readOnlyStore.Reads [taskFive] ∧
      ((getTodos readOnlyStore).1 = .json (.arr ([taskFive].map Json.obj)) ∧
        (filterTodos readOnlyStore (.given ⟨.json (.str "pending"), none, .undefined⟩)).1 =
          .ok (.json (.arr (([taskFive].filter (completedIs false)).map Json.obj))) ∧
        (filterTodos readOnlyStore (.given ⟨.json (.str "completed"), none, .undefined⟩)).1 =
          .ok (.json (.arr (([taskFive].filter (completedIs true)).map Json.obj))) ∧
        (filterTodos readOnlyStore (.given ⟨.json (.str "all"), none, .undefined⟩)).1 =
          .ok (.json (.arr ([taskFive].map Json.obj))) ∧
        (filterTodos readOnlyStore (.given ⟨.undefined, none, .undefined⟩)).1 =
          .ok (.json (.arr ([taskFive].map Json.obj))) ∧
        (filterTodos readOnlyStore .absent).1 =
          .ok (.json (.arr ([taskFive].map Json.obj)))) :=
  ⟨readOnlyStore_reads,
    filterTodos_by_status readOnlyStore [taskFive] .undefined readOnlyStore_reads⟩

/-- C10 (as stated, refuted): the empty string is a filter value that is present and is none
of "completed", "pending" and "all", yet on the sample store the body of `filterTodos` raises
nothing for it and `filterTodos` returns the two stored tasks, not an empty sequence. -/
theorem filterTodos_empty_filter_counterexample :
    (filterTodosBody sampleStore ⟨.json (.str ""), none, .undefined⟩).1 =
        .ok (.json (.arr [.obj taskFive, .obj taskNine])) ∧
      (filterTodos sampleStore (.given ⟨.json (.str ""), none, .undefined⟩)).1 =
        .ok (.json (.arr [.obj taskFive, .obj taskNine])) ∧
      (getTodos sampleStore).1 = .json (.arr [.obj taskFive, .obj taskNine]) :=
  ⟨rfl, rfl, rfl⟩

/-- C10 (amended): for every store state and every options object whose filter is truthy and
is none of "completed", "pending" and "all", the body of `filterTodos` raises the
invalid-filter `UserError` and `filterTodos` returns an empty sequence. -/
theorem filterTodos_invalid_filter (s : Store) (o : FilterOptions)
    (ht : o.filter.truthy = true)
    (hc : o.filter ≠ .json (.str "completed"))
    (hp : o.filter ≠ .json (.str "pending"))
    (ha : o.filter ≠ .json (.str "all")) :
    (filterTodosBody s o).1 = .error (.userError invalidFilterMessage) ∧
      (filterTodos s (.given o)).1 = .ok (.json (.arr [])) := by
  have h1 : strictEq o.filter (.json (.str "completed")) = false := by
    rw [Bool.eq_false_iff]
    exact fun h => hc ((strictEq_str_iff _ _).mp h)
  have h2 : strictEq o.filter (.json (.str "pending")) = false := by
    rw [Bool.eq_false_iff]
    exact fun h => hp ((strictEq_str_iff _ _).mp h)
  have h3 : strictEq o.filter (.json (.str "all")) = false := by
    rw [Bool.eq_false_iff]
    exact fun h => ha ((strictEq_str_iff _ _).mp h)
  have hbody : (filterTodosBody s o).1 = .error (.userError invalidFilterMessage) := by
    unfold filterTodosBody
    simp [h1, h2, h3, ht]
  exact ⟨hbody, filterTodos_of_body_error s o _ hbody⟩

theorem filterTodos_invalid_filter_witness :
    (Val.json (.str "bogus")).truthy = true ∧
      Val.json (.str "bogus") ≠ .json (.str "completed") ∧
      Val.json (.str "bogus") ≠ .json (.str "pending") ∧
      Val.json (.str "bogus") ≠ .json (.str "all") ∧
      (filterTodosBody sampleStore ⟨.json (.str "bogus"), some "createdAt", .undefined⟩).1 =
        .error (.userError invalidFilterMessage) ∧
      (filterTodos sampleStore (.given ⟨.json (.str "bogus"), some "createdAt", .undefined⟩)).1 =
        .ok (.json (.arr [])) :=
  ⟨by decide, by simp, by simp, by simp,
    filterTodos_invalid_filter sampleStore ⟨.json (.str "bogus"), some "createdAt", .undefined⟩
      (by decide) (by simp) (by simp) (by simp)⟩

/-! ## `saveTodos` then `getTodos` -/

theorem eraseField_setField (f : Fields) (k : String) (v : Json) :
    eraseField (setField f k v) k = eraseField f k := by
  unfold setField
  by_cases h : hasField f k = true
  · rw [if_pos h]
    clear h
    induction f with
    | nil => rfl
    | cons kv rest ih =>
      rw [List.map_cons, eraseField_cons, eraseField_cons]
      by_cases hk : kv.1 = k
      · simp [hk, ih]
      · simp [hk, ih]
  · rw [if_neg h]
    simp [eraseField, List.filter_append]

theorem getDB_readable (s : Store) (hs : s.Readable) :
    ∃ doc : Fields, (getDB s).1 = .ok (.obj doc) ∧
      (∀ X : List Json,
        saveTodos s (.json (.arr X)) =
          ⟨some (.json (.obj (setField doc todoKey (.arr X)))), true, true⟩) := by
  obtain ⟨item, r, w⟩ := s
  obtain ⟨hr, hw, hc⟩ := hs
  simp only at hr hw hc
  subst hr hw
  rcases hc with hi | hi | ⟨doc, hi⟩
  · subst hi
    exact ⟨[], rfl, fun _ => rfl⟩
  · subst hi
    exact ⟨[], rfl, fun _ => rfl⟩
  · subst hi
    exact ⟨doc, rfl, fun _ => rfl⟩

/-- C11 (as stated, refuted): over a medium that rejects writes the document is readable, yet
after `saveTodos([taskNine])` `getTodos` still returns the list stored before; and when the
stored text is the number 5, which reads back, the assignment of the list raises and
`getTodos` returns the empty sequence afterwards. -/
theorem saveTodos_not_stored_counterexample :
    (getDB readOnlyStore).1 = .ok (.obj [("todo-list", .arr [.obj taskFive])]) ∧
      (getTodos (saveTodos readOnlyStore (.json (.arr [.obj taskNine])))).1 =
        .json (.arr [.obj taskFive]) ∧
      (getDB numberDocStore).1 = .ok (.num 5) ∧
      (getTodos (saveTodos numberDocStore (.json (.arr [.obj taskNine])))).1 =
        .json (.arr []) :=
  ⟨rfl, rfl, rfl, rfl⟩

/-- C11 (amended): on every store whose medium serves reads and accepts writes and whose
document is readable (an object, or nothing stored yet) and for every sequence `X`, after
`saveTodos(X)` `getTodos` returns `X`, and the document read back has, besides the task-list
key, the same entries in the same order as the document read before the call, so every other
top-level key keeps its value. -/
theorem saveTodos_getTodos_roundtrip (s : Store) (X : List Json) (hs : s.Readable) :
    (getTodos (saveTodos s (.json (.arr X)))).1 = .json (.arr X) ∧
      ∃ doc doc1 : Fields,
        (getDB s).1 = .ok (.obj doc) ∧
          (getDB (saveTodos s (.json (.arr X)))).1 = .ok (.obj doc1) ∧
          eraseField doc1 todoKey = eraseField doc todoKey ∧
          ∀ key, key ≠ todoKey → getField doc1 key = getField doc key := by
  obtain ⟨doc, hdoc, hsave⟩ := getDB_readable s hs
  have hafter : (saveTodos s (.json (.arr X))).HoldsList X := by
    rw [hsave X]
    exact ⟨rfl, rfl, Or.inr ⟨_, rfl, Or.inl (getField_setField_same _ _ _)⟩⟩
  refine ⟨(getTodos_of_holdsList _ X hafter).1, doc, setField doc todoKey (.arr X), hdoc, ?_,
    eraseField_setField doc todoKey _, fun key hk => getField_setField_other doc todoKey key _ hk⟩
  rw [hsave X]
  rfl

theorem sampleStore_readable : sampleStore.Readable :=
  ⟨rfl, rfl, Or.inr (Or.inr ⟨_, rfl⟩)⟩

theorem saveTodos_getTodos_roundtrip_witness :
    sampleStore.Readable ∧
      ((getTodos (saveTodos sampleStore (.json (.arr [.obj taskNine, .obj taskFive])))).1 =
          .json (.arr [.obj taskNine, .obj taskFive]) ∧
        ∃ doc doc1 : Fields,
          (getDB sampleStore).1 = .ok (.obj doc) ∧
            (getDB (saveTodos sampleStore
              (.json (.arr [.obj taskNine, .obj taskFive])))).1 = .ok (.obj doc1) ∧
            eraseField doc1 todoKey = eraseField doc todoKey ∧
            ∀ key, key ≠ todoKey → getField doc1 key = getField doc key) :=
  ⟨sampleStore_readable,
    saveTodos_getTodos_roundtrip sampleStore [.obj taskNine, .obj taskFive] sampleStore_readable⟩

/-! ## Unreadable documents -/

theorem getDB_error_kind (s : Store) (e : JsError) (h : (getDB s).1 = .error e) :
    e = .referenceError := by
  unfold getDB at h
  simp only at h
  split at h
  · exact absurd h (by simp)
  · simp only [Except.error.injEq] at h
    exact h.symm

theorem getDB_corrupt (s : Store) (h : s.item = some .corrupt) :
    (getDB s).1 = .error .referenceError := by
  obtain ⟨item, r, w⟩ := s
  simp only at h
  subst h
  cases r <;> rfl

theorem getTodos_of_unreadable (s : Store) (h : s.canRead = false ∨ s.item = some .corrupt) :
    (getTodos s).1 = .undefined := by
  obtain ⟨item, r, w⟩ := s
  rcases h with h | h
  · simp only at h
    subst h
    rfl
  · simp only at h
    subst h
    cases r <;> rfl

/-- C13 (the code at the failing inputs): when the stored text does not parse, and when the
medium cannot be read, `getTodos` returns `undefined`, not an empty sequence. -/
theorem getTodos_unreadable_returns_undefined :
    (getTodos corruptStore).1 = .undefined ∧ (getTodos offlineStore).1 = .undefined :=
  ⟨rfl, rfl⟩

/-- C14 (the code at the failing inputs): on a store whose text does not parse, `filterTodos`
with filter "all" and no sort key, and `filterTodos` without an argument, return `undefined`;
with filter "pending", or with a sort key, the handler returns the empty sequence. -/
theorem filterTodos_unreadable_returns_undefined :
    (filterTodos corruptStore (.given ⟨.json (.str "all"), none, .undefined⟩)).1 =
        .ok .undefined ∧
      (filterTodos corruptStore .absent).1 = .ok .undefined ∧
      (filterTodos corruptStore (.given ⟨.json (.str "pending"), none, .undefined⟩)).1 =
        .ok (.json (.arr [])) ∧
      (filterTodos corruptStore (.given ⟨.json (.str "all"), some "createdAt", .undefined⟩)).1 =
        .ok (.json (.arr [])) :=
  ⟨rfl, rfl, rfl, rfl⟩

/-- C15 (the code at the failing input): on a store whose text does not parse, `getDB` fails
with the `ReferenceError` raised inside its handler, not with a `StorageError`. -/
theorem getDB_corrupt_raises_referenceError :
    (getDB corruptStore).1 = .error .referenceError ∧
      ∀ message, (getDB corruptStore).1 ≠ .error (.storageError message) :=
  ⟨rfl, fun _ h => by cases h⟩

/-! ## Errors that reach the caller -/

theorem filterTodos_returns_of_not_null (s : Store) (options : OptionsArg)
    (h : options ≠ .null) : ∃ v, (filterTodos s options).1 = .ok v := by
  cases options with
  | null => exact absurd rfl h
  | absent =>
    rw [filterTodos_absent]
    cases hb : (filterTodosBody s ⟨.undefined, none, .undefined⟩).1 with
    | ok r => exact ⟨r, filterTodos_of_body_ok s _ r hb⟩
    | error e => exact ⟨_, filterTodos_of_body_error s _ e hb⟩
  | given o =>
    cases hb : (filterTodosBody s o).1 with
    | ok r => exact ⟨r, filterTodos_of_body_ok s _ r hb⟩
    | error e => exact ⟨_, filterTodos_of_body_error s _ e hb⟩

/-- C17 (the code at the failing input): on every store, `filterTodos(null)` does not return:
the `TypeError` of binding its parameter pattern, raised before the `try` block, reaches the
caller. -/
theorem filterTodos_null_raises (s : Store) :
    (filterTodos s .null).1 = .error .typeError ∧ (filterTodos s .null).2 = s :=
  ⟨rfl, rfl⟩

/-! ## Ids along a sequence of calls -/

theorem restWithoutId_ok (updatedFields : Val) (otherFields : Fields)
    (h : restWithoutId updatedFields = .ok otherFields) :
    otherFields = eraseField updatedFields.ownEntries "id" := by
  unfold restWithoutId at h
  split at h
  · exact absurd h (by simp)
  · exact absurd h (by simp)
  · simp only [Except.ok.injEq] at h
    exact h.symm

theorem getField_mergeFields_id (t : Fields) (updatedFields : Val) :
    getField (mergeFields t (eraseField updatedFields.ownEntries "id")) "id" =
      getField t "id" := by
  rw [getField_mergeFields, getField_eraseField_same]

theorem updateEach_records_ids (id updatedFields : Val) (ts : List Fields) (b : Bool) :
    (∃ e, updateEach id updatedFields (ts.map Json.obj) b = .error e) ∨
      ∃ ts1 b1, updateEach id updatedFields (ts.map Json.obj) b = .ok (ts1.map Json.obj, b1) ∧
        taskIds ts1 = taskIds ts := by
  induction ts generalizing b with
  | nil => exact Or.inr ⟨[], b, rfl, rfl⟩
  | cons t rest ih =>
    rw [List.map_cons, updateEach, getProp_obj]
    by_cases hm : strictEq (fieldVal t "id") id = true
    · simp only [hm, if_true]
      cases hr : restWithoutId updatedFields with
      | error e => exact Or.inl ⟨e, rfl⟩
      | ok otherFields =>
        have ho := restWithoutId_ok updatedFields otherFields hr
        simp only
        by_cases hlen : otherFields.length = 0
        · rw [if_pos hlen]
          exact Or.inl ⟨_, rfl⟩
        · rw [if_neg hlen]
          rcases ih true with ⟨e, he⟩ | ⟨ts1, b1, hok, hids⟩
          · rw [he]
            exact Or.inl ⟨e, rfl⟩
          · rw [hok]
            refine Or.inr ⟨mergeFields t otherFields :: ts1, b1, rfl, ?_⟩
            simp only [taskIds, List.map_cons] at hids ⊢
            rw [hids, ho, getField_mergeFields_id]
    · simp only [hm, if_false]
      rcases ih b with ⟨e, he⟩ | ⟨ts1, b1, hok, hids⟩
      · rw [he]
        exact Or.inl ⟨e, rfl⟩
      · rw [hok]
        refine Or.inr ⟨t :: ts1, b1, rfl, ?_⟩
        simp only [taskIds, List.map_cons] at hids ⊢
        rw [hids]

theorem updateTodo_holds_ids (s : Store) (ts : List Fields) (id updatedFields : Val)
    (hs : s.Holds ts) :
    ∃ ts1, (updateTodo s id updatedFields).2.Holds ts1 ∧ taskIds ts1 = taskIds ts := by
  obtain ⟨h1, h2⟩ := getTodos_of_holdsList s _ hs
  unfold updateTodo updateTodoBody
  by_cases hguard : (!id.truthy || !id.isNumber) = true
  · rw [if_pos hguard]
    exact ⟨ts, hs, rfl⟩
  · rw [if_neg hguard]
    cases hg : getTodos s with
    | mk todos s1 =>
      rw [hg] at h1 h2
      simp only at h1 h2
      subst h1
      simp only
      rcases updateEach_records_ids id updatedFields ts false with ⟨e, he⟩ | ⟨ts1, b1, hok, hids⟩
      · rw [he]
        exact ⟨ts, h2, rfl⟩
      · rw [hok]
        cases b1 with
        | false => exact ⟨ts, h2, rfl⟩
        | true => exact ⟨ts1, saveTodos_of_holdsList s1 _ _ h2, hids⟩

theorem addTodo_invalid (s : Store) (clock : Clock) (todo : Val)
    (h : validateTodo todo = false) : addTodo s clock todo = s := by
  unfold addTodo
  rw [h]
  rfl

theorem addTodo_holds (s : Store) (ts : List Fields) (clock : Clock) (todo : Val)
    (hs : s.Holds ts) (h : validateTodo todo = true) :
    (addTodo s clock todo).Holds (ts ++ [newTodo clock todo]) := by
  obtain ⟨h1, h2⟩ := getTodos_of_holdsList s _ hs
  unfold addTodo
  rw [h]
  cases hg : getTodos s with
  | mk todos s1 =>
    rw [hg] at h1 h2
    simp only at h1 h2
    subst h1
    simp only [Bool.not_true, Bool.false_eq_true, if_false, arrayPush]
    have := saveTodos_of_holdsList s1 _ (ts.map Json.obj ++ [.obj (newTodo clock todo)]) h2
    simpa [Store.Holds] using this

theorem newTodo_id_of_none (clock : Clock) (todo : Val)
    (h : getField todo.ownEntries "id" = none) :
    getField (newTodo clock todo) "id" = some (.num clock.now) := by
  unfold newTodo
  rw [getField_setField_other _ _ _ _ (by decide), getField_spread, h]
  rfl

theorem distinctIds_mono (s : Store) (used used1 : List Int) (h : s.DistinctIds used)
    (hsub : ∀ n ∈ used, n ∈ used1) : s.DistinctIds used1 := by
  obtain ⟨ts, hs, hn, hu⟩ := h
  refine ⟨ts, hs, hn, fun t ht => ?_⟩
  obtain ⟨n, hmem, hid⟩ := hu t ht
  exact ⟨n, hsub n hmem, hid⟩

theorem addTodo_distinctIds (s : Store) (used : List Int) (clock : Clock) (todo : Val)
    (h : s.DistinctIds used) (hnew : clock.now ∉ used)
    (hown : getField todo.ownEntries "id" = none) :
    (addTodo s clock todo).DistinctIds (clock.now :: used) := by
  cases hv : validateTodo todo with
  | false =>
    rw [addTodo_invalid s clock todo hv]
    exact distinctIds_mono s used _ h (fun n hn => List.mem_cons_of_mem _ hn)
  | true =>
    obtain ⟨ts, hs, hn, hu⟩ := h
    have hid := newTodo_id_of_none clock todo hown
    refine ⟨ts ++ [newTodo clock todo], addTodo_holds s ts clock todo hs hv, ?_, ?_⟩
    · have hfresh : some (Json.num clock.now) ∉ taskIds ts := by
        intro hmem
        obtain ⟨t, ht, hteq⟩ := List.mem_map.mp hmem
        obtain ⟨n, hnmem, hnid⟩ := hu t ht
        rw [hnid] at hteq
        have hq : (n : ℚ) = (clock.now : ℚ) := by
          injection hteq with h1
          injection h1
        exact hnew (Int.cast_injective hq ▸ hnmem)
      simp only [taskIds, List.map_append, List.map_cons, List.map_nil, hid]
      rw [List.nodup_append]
      refine ⟨hn, List.nodup_singleton _, ?_⟩
      intro x hx hx1
      rw [List.mem_singleton] at hx1
      subst hx1
      exact hfresh hx
    · intro t ht
      rcases List.mem_append.mp ht with ht | ht
      · obtain ⟨n, hnmem, hnid⟩ := hu t ht
        exact ⟨n, List.mem_cons_of_mem _ hnmem, hnid⟩
      · rw [List.mem_singleton] at ht
        subst ht
        exact ⟨clock.now, List.mem_cons_self _ _, hid⟩

theorem updateTodo_distinctIds (s : Store) (used : List Int) (id updatedFields : Val)
    (h : s.DistinctIds used) : (updateTodo s id updatedFields).2.DistinctIds used := by
  obtain ⟨ts, hs, hn, hu⟩ := h
  obtain ⟨ts1, hs1, hids⟩ := updateTodo_holds_ids s ts id updatedFields hs
  refine ⟨ts1, hs1, hids ▸ hn, fun t ht => ?_⟩
  have hmem : getField t "id" ∈ taskIds ts := by
    rw [← hids]
    exact List.mem_map.mpr ⟨t, ht, rfl⟩
  obtain ⟨t0, ht0, heq⟩ := List.mem_map.mp hmem
  obtain ⟨n, hnmem, hnid⟩ := hu t0 ht0
  exact ⟨n, hnmem, by rw [← heq, hnid]⟩

theorem removeTodo_distinctIds (s : Store) (used : List Int) (id : Val)
    (h : s.DistinctIds used) : (removeTodo s id).DistinctIds used := by
  obtain ⟨ts, hs, hn, hu⟩ := h
  refine ⟨_, removeTodo_of_holds s ts id hs, ?_, fun t ht => hu t (List.mem_of_mem_filter ht)⟩
  exact List.Nodup.sublist (List.Sublist.map _ (List.filter_sublist _)) hn

theorem runCalls_distinctIds (calls : List Call) :
    ∀ (s : Store) (used : List Int), s.DistinctIds used → (addReadings calls).Nodup →
      (∀ n ∈ addReadings calls, n ∉ used) → (∀ c ∈ calls, c.noOwnId = true) →
        ∃ used1, (runCalls s calls).DistinctIds used1 := by
  induction calls with
  | nil => exact fun s used h _ _ _ => ⟨used, h⟩
  | cons c rest ih =>
    intro s used h hnodup hfresh hown
    have hrest : ∀ c1 ∈ rest, c1.noOwnId = true :=
      fun c1 hc1 => hown c1 (List.mem_cons_of_mem _ hc1)
    cases c with
    | add clock todo =>
      have hc := hown _ (List.mem_cons_self _ _)
      simp only [Call.noOwnId, Option.isNone_iff_eq_none] at hc
      simp only [addReadings, List.nodup_cons] at hnodup
      have hnow : clock.now ∉ used := hfresh _ (by simp [addReadings])
      refine ih (addTodo s clock todo) (clock.now :: used)
        (addTodo_distinctIds s used clock todo h hnow hc) hnodup.2 ?_ hrest
      intro n hn hmem
      rcases List.mem_cons.mp hmem with heq | hmem
      · exact hnodup.1 (heq ▸ hn)
      · exact hfresh n (by simp [addReadings, hn]) hmem
    | update id updatedFields =>
      exact ih _ used (updateTodo_distinctIds s used id updatedFields h) hnodup hfresh hrest
    | remove id =>
      exact ih _ used (removeTodo_distinctIds s used id h) hnodup hfresh hrest

/-- C12 (as stated, refuted): two `addTodo` calls within the same millisecond, made on an
empty store, leave two tasks that carry the same id. -/
theorem sameMillisecond_ids_counterexample :
    (getTodos (runCalls freshStore sameMillisecondCalls)).1 =
        .json (.arr [
          .obj [("id", .num 1700000000000), ("title", .str "Buy milk"),
            ("createdAt", .str "2023-11-14T22:13:20.000Z")],
          .obj [("id", .num 1700000000000), ("title", .str "Feed the cat"),
            ("createdAt", .str "2023-11-14T22:13:20.000Z")]]) ∧
      ¬ (taskIds [
          [("id", .num 1700000000000), ("title", .str "Buy milk"),
            ("createdAt", .str "2023-11-14T22:13:20.000Z")],
          [("id", .num 1700000000000), ("title", .str "Feed the cat"),
            ("createdAt", .str "2023-11-14T22:13:20.000Z")]]).Nodup :=
  ⟨rfl, by simp [taskIds, getField]⟩

/-- C12 (amended): starting from an empty store, after every finite sequence of `addTodo`,
`updateTodo` and `removeTodo` calls in which the `addTodo` calls read pairwise different
milliseconds and no `addTodo` candidate carries an id of its own, the tasks `getTodos` returns
have pairwise distinct ids. -/
theorem distinct_ids_after_calls (s : Store) (calls : List Call) (hs : s.Holds [])
    (hclock : (addReadings calls).Nodup) (hown : ∀ c ∈ calls, c.noOwnId = true) :
    ∃ ts : List Fields,
      (getTodos (runCalls s calls)).1 = .json (.arr (ts.map Json.obj)) ∧
        (taskIds ts).Nodup := by
  have h0 : s.DistinctIds [] :=
    ⟨[], hs, List.nodup_nil, fun t ht => absurd ht (List.not_mem_nil t)⟩
  obtain ⟨used1, ts, hts, hn, _⟩ :=
    runCalls_distinctIds calls s [] h0 hclock (fun n _ => List.not_mem_nil n) hown
  exact ⟨ts, (getTodos_of_holdsList _ _ hts).1, hn⟩

theorem freshStore_holds : freshStore.Holds [] :=
  ⟨rfl, rfl, Or.inl ⟨Or.inl rfl, rfl⟩⟩

theorem distinct_ids_after_calls_witness :
    freshStore.Holds [] ∧ (addReadings sampleCalls).Nodup ∧
      (∀ c ∈ sampleCalls, c.noOwnId = true) ∧
      ∃ ts : List Fields,
        (getTodos (runCalls freshStore sampleCalls)).1 = .json (.arr (ts.map Json.obj)) ∧
          (taskIds ts).Nodup :=
  ⟨freshStore_holds, by decide, by decide,
    distinct_ids_after_calls freshStore sampleCalls freshStore_holds (by decide) (by decide)⟩

/-! ## Sorting -/

theorem lessThan_num (x y : ℚ) :
    lessThan (.json (.num x)) (.json (.num y)) = true ↔ x < y := by
  simp [lessThan, toNumber]

theorem unitsLess_iff_lex (xs ys : List Nat) :
    unitsLess xs ys = true ↔ List.Lex (fun m n : Nat => m < n) xs ys := by
  induction xs generalizing ys with
  | nil =>
    cases ys with
    | nil => simp [unitsLess, List.Lex.not_nil_right]
    | cons b bs => simp [unitsLess, List.Lex.nil]
  | cons a as ih =>
    cases ys with
    | nil => simp [unitsLess, List.Lex.not_nil_right]
    | cons b bs =>
      rw [unitsLess]
      by_cases hab : a < b
      · simp [hab, List.Lex.rel hab]
      · by_cases hba : b < a
        · simp only [hab, hba, if_true, if_false, Bool.false_eq_true, false_iff]
          intro h
          cases h with
          | rel h1 => exact hab h1
          | cons h1 => exact absurd hba (lt_irrefl a)
        · have heq : a = b := le_antisymm (not_lt.mp hba) (not_lt.mp hab)
          subst heq
          simp only [hab, if_false, ih bs]
          exact (List.Lex.cons_iff).symm

theorem lessThan_str (x y : String) :
    lessThan (.json (.str x)) (.json (.str y)) = true ↔ codeUnits x < codeUnits y := by
  simp only [lessThan]
  exact unitsLess_iff_lex _ _

theorem compareTodos_records {κ : Type} [LinearOrder κ] (k : Fields → κ) (key : String)
    (asc : Bool) (a b : Fields)
    (hab : lessThan (fieldVal a key) (fieldVal b key) = true ↔ k a < k b)
    (hba : lessThan (fieldVal b key) (fieldVal a key) = true ↔ k b < k a) :
    ∃ c : Int, compareTodos key asc (.obj a) (.obj b) = .ok c ∧ (c ≤ 0 ↔ keyRel k asc a b) := by
  simp only [compareTodos, getProp_obj]
  refine ⟨_, rfl, ?_⟩
  unfold keyRel
  by_cases h1 : k b < k a
  · have e1 : lessThan (fieldVal b key) (fieldVal a key) = true := hba.mpr h1
    cases asc
    · simp [e1, le_of_lt h1]
    · simp [e1, not_le.mpr h1]
  · have e1 : lessThan (fieldVal b key) (fieldVal a key) = false := by
      rw [Bool.eq_false_iff]
      exact fun h => h1 (hba.mp h)
    by_cases h2 : k a < k b
    · have e2 : lessThan (fieldVal a key) (fieldVal b key) = true := hab.mpr h2
      cases asc
      · simp [e1, e2, not_le.mpr h2]
      · simp [e1, e2, le_of_lt h2]
    · have e2 : lessThan (fieldVal a key) (fieldVal b key) = false := by
        rw [Bool.eq_false_iff]
        exact fun h => h2 (hab.mp h)
      cases asc
      · simp [e1, e2, not_lt.mp h2]
      · simp [e1, e2, not_lt.mp h1]

theorem sortInsert_records {κ : Type} [LinearOrder κ] (k : Fields → κ) (key : String)
    (asc : Bool) (P : Fields → Prop)
    (hP : ∀ a b, P a → P b →
      (lessThan (fieldVal a key) (fieldVal b key) = true ↔ k a < k b))
    (a : Fields) (l : List Fields) (ha : P a) (hl : ∀ b ∈ l, P b) :
    sortInsert (compareTodos key asc) (.obj a) (l.map Json.obj) =
      .ok ((l.orderedInsert (keyRel k asc) a).map Json.obj) := by
  induction l with
  | nil => rfl
  | cons b rest ih =>
    have hb : P b := hl b (List.mem_cons_self _ _)
    have hrest : ∀ c ∈ rest, P c := fun c hc => hl c (List.mem_cons_of_mem _ hc)
    obtain ⟨c, hc, hle⟩ := compareTodos_records k key asc a b (hP a b ha hb) (hP b a hb ha)
    rw [List.map_cons, sortInsert, hc]
    simp only [List.orderedInsert]
    by_cases hr : keyRel k asc a b
    · rw [if_pos (hle.mpr hr), if_pos hr]
      rfl
    · rw [if_neg (fun h => hr (hle.mp h)), if_neg hr, ih hrest]
      rfl

theorem sortWith_records {κ : Type} [LinearOrder κ] (k : Fields → κ) (key : String)
    (asc : Bool) (P : Fields → Prop)
    (hP : ∀ a b, P a → P b →
      (lessThan (fieldVal a key) (fieldVal b key) = true ↔ k a < k b))
    (l : List Fields) (hl : ∀ b ∈ l, P b) :
    sortWith (compareTodos key asc) (l.map Json.obj) =
      .ok ((l.insertionSort (keyRel k asc)).map Json.obj) := by
  induction l with
  | nil => rfl
  | cons a rest ih =>
    have ha : P a := hl a (List.mem_cons_self _ _)
    have hrest : ∀ c ∈ rest, P c := fun c hc => hl c (List.mem_cons_of_mem _ hc)
    rw [List.map_cons, sortWith, ih hrest]
    simp only [List.insertionSort]
    exact sortInsert_records k key asc P hP a _ ha
      (fun b hb => hrest b ((List.mem_insertionSort _).mp hb))

theorem fieldVal_of_num (key : String) (t : Fields) (h : ∃ q, getField t key = some (.num q)) :
    fieldVal t key = .json (.num (numKey key t)) := by
  obtain ⟨q, hq⟩ := h
  simp [fieldVal, numKey, hq]

theorem fieldVal_of_str (key : String) (t : Fields) (h : ∃ a, getField t key = some (.str a)) :
    ∃ a, fieldVal t key = .json (.str a) ∧ strKey key t = codeUnits a := by
  obtain ⟨a, ha⟩ := h
  exact ⟨a, by simp [fieldVal, ha], by simp [strKey, ha]⟩

theorem sortedSelection_generic {κ : Type} [LinearOrder κ] (k : Fields → κ) (key : String)
    (asc : Bool) (P : Fields → Prop)
    (hP : ∀ a b, P a → P b →
      (lessThan (fieldVal a key) (fieldVal b key) = true ↔ k a < k b))
    (hle : ∀ a b, P a → P b → (valLe (fieldVal a key) (fieldVal b key) ↔ k a ≤ k b))
    (sel : List Fields) (hsel : ∀ b ∈ sel, P b) :
    SortedSelection key asc sel
      (arraySort (compareTodos key asc) (.json (.arr (sel.map Json.obj)))) := by
  refine ⟨sel.insertionSort (keyRel k asc), ?_, List.perm_insertionSort _ sel, ?_⟩
  · simp only [arraySort, sortWith_records k key asc P hP sel hsel]
  · have hsorted : (sel.insertionSort (keyRel k asc)).Pairwise (keyRel k asc) :=
      List.sorted_insertionSort (keyRel k asc) sel
    refine hsorted.imp_of_mem ?_
    intro a b ha hb hr
    have pa : P a := hsel a ((List.mem_insertionSort _).mp ha)
    have pb : P b := hsel b ((List.mem_insertionSort _).mp hb)
    unfold keyRel at hr
    cases asc
    · simp only [Bool.false_eq_true, if_false] at hr ⊢
      exact (hle b a pb pa).mpr hr
    · simp only [if_true] at hr ⊢
      exact (hle a b pa pb).mpr hr

theorem sortedSelection_of_keys (key : String) (asc : Bool) (sel : List Fields)
    (hkinds : (∀ t ∈ sel, ∃ q, getField t key = some (.num q)) ∨
      (∀ t ∈ sel, ∃ a, getField t key = some (.str a))) :
    SortedSelection key asc sel
      (arraySort (compareTodos key asc) (.json (.arr (sel.map Json.obj)))) := by
  rcases hkinds with hnum | hstr
  · refine sortedSelection_generic (numKey key) key asc
      (fun t => ∃ q, getField t key = some (.num q)) ?_ ?_ sel hnum
    · intro a b pa pb
      rw [fieldVal_of_num key a pa, fieldVal_of_num key b pb]
      exact lessThan_num _ _
    · intro a b pa pb
      rw [fieldVal_of_num key a pa, fieldVal_of_num key b pb]
      exact Iff.rfl
  · refine sortedSelection_generic (strKey key) key asc
      (fun t => ∃ a, getField t key = some (.str a)) ?_ ?_ sel hstr
    · intro a b pa pb
      obtain ⟨x, hx, kx⟩ := fieldVal_of_str key a pa
      obtain ⟨y, hy, ky⟩ := fieldVal_of_str key b pb
      rw [hx, hy, kx, ky]
      exact lessThan_str _ _
    · intro a b pa pb
      obtain ⟨x, hx, kx⟩ := fieldVal_of_str key a pa
      obtain ⟨y, hy, ky⟩ := fieldVal_of_str key b pb
      rw [hx, hy, kx, ky]
      exact Iff.rfl

theorem filterTodosBody_with_sort (s : Store) (filter ascending : Val)
    (key : String) (hk : key ≠ "") :
    (filterTodosBody s ⟨filter, some key, ascending⟩).1 =
      match (filterTodosBody s ⟨filter, none, ascending⟩).1 with
      | .error e => .error e
      | .ok todos1 => arraySort (compareTodos key (ascendingOf ascending)) todos1 := by
  unfold filterTodosBody
  cases hg : getTodos s with
  | mk todos s1 =>
    simp only
    split
    · rename_i heq
      rw [heq]
    · rename_i heq
      rw [heq]
      simp [hk]

theorem filterTodos_sortedSelection (s : Store) (filter ascending : Val) (key : String)
    (sel : List Fields) (hk : key ≠ "")
    (hbody : (filterTodosBody s ⟨filter, none, ascending⟩).1 =
      .ok (.json (.arr (sel.map Json.obj))))
    (hkinds : (∀ t ∈ sel, ∃ q, getField t key = some (.num q)) ∨
      (∀ t ∈ sel, ∃ a, getField t key = some (.str a))) :
    SortedSelection key (ascendingOf ascending) sel
      (filterTodos s (.given ⟨filter, some key, ascending⟩)).1 := by
  obtain ⟨out, hout, hperm, hsorted⟩ :=
    sortedSelection_of_keys key (ascendingOf ascending) sel hkinds
  refine ⟨out, ?_, hperm, hsorted⟩
  apply filterTodos_of_body_ok
  rw [filterTodosBody_with_sort s filter ascending key hk, hbody]
  exact hout

theorem filterTodos_eq_orderTodos (s : Store) (key : String) (ascending : Val)
    (hk : key ≠ "") :
    (filterTodos s (.given ⟨.undefined, some key, ascending⟩)).1 =
      .ok (orderTodos s key ascending).1 := by
  have hbody : (filterTodosBody s ⟨.undefined, some key, ascending⟩).1 =
      arraySort (compareTodos key (ascendingOf ascending)) (getTodos s).1 := by
    unfold filterTodosBody
    cases hg : getTodos s with
    | mk todos s1 => simp [strictEq, Val.truthy, hk]
  cases hsort : arraySort (compareTodos key (ascendingOf ascending)) (getTodos s).1 with
  | ok sorted =>
    rw [filterTodos_of_body_ok s _ sorted (hbody.trans hsort)]
    unfold orderTodos
    cases hg : getTodos s with
    | mk todos s1 =>
      rw [hg] at hsort
      simp only at hsort
      simp only [hsort]
  | error e =>
    rw [filterTodos_of_body_error s _ e (hbody.trans hsort)]
    unfold orderTodos
    cases hg : getTodos s with
    | mk todos s1 =>
      rw [hg] at hsort
      simp only at hsort
      simp only [hsort]

theorem sortsSelection_of_body (s : Store) (filter : Val) (key : String)
    (sel : List Fields) (hk : key ≠ "")
    (hbody : ∀ ascending : Val, (filterTodosBody s ⟨filter, none, ascending⟩).1 =
      .ok (.json (.arr (sel.map Json.obj))))
    (hkinds : (∀ t ∈ sel, ∃ q, getField t key = some (.num q)) ∨
      (∀ t ∈ sel, ∃ a, getField t key = some (.str a))) :
    SortsSelection s filter key sel :=
  ⟨filterTodos_sortedSelection s filter .undefined key sel hk (hbody _) hkinds,
    filterTodos_sortedSelection s filter (.json (.bool true)) key sel hk (hbody _) hkinds,
    filterTodos_sortedSelection s filter (.json (.bool false)) key sel hk (hbody _) hkinds⟩

/-- C16 (as stated, refuted): the empty string is a sort key, and on a store whose two tasks
have the numbers 2 and 1 under it `filterTodos` with that sort key returns them as stored, 2
before 1: an empty sort key counts as none and nothing is sorted.  And on a store whose list
has a `null` element before the pending task `taskFive`, `filterTodos` with filter "pending"
and sort key "id" returns the empty sequence. -/
theorem filterTodos_empty_sortKey_counterexample :
    (getTodos emptyKeyStore).1 = .json (.arr [.obj rankTwo, .obj rankOne]) ∧
      fieldVal rankTwo "" = .json (.num 2) ∧ fieldVal rankOne "" = .json (.num 1) ∧
      (filterTodos emptyKeyStore (.given ⟨.undefined, some "", .undefined⟩)).1 =
        .ok (.json (.arr [.obj rankTwo, .obj rankOne])) ∧
      ¬ valLe (fieldVal rankTwo "") (fieldVal rankOne "") ∧
      completedIs false taskFive = true ∧
      (filterTodos nullElementStore
        (.given ⟨.json (.str "pending"), some "id", .undefined⟩)).1 = .ok (.json (.arr [])) := by
  refine ⟨rfl, rfl, rfl, rfl, ?_, rfl, rfl⟩
  show ¬ ((2 : ℚ) ≤ 1)
  norm_num

/-- C16 (amended): on every store whose document can be read and holds the task records `ts`,
for a non-empty sort key whose values on the stored tasks are all numbers or all strings and
for each of the filters "completed", "pending", "all" and none, `filterTodos` returns a
permutation of exactly the tasks the filter selects, with the sort-key values (numbers by
size, strings by UTF-16 code unit) non-decreasing when `ascending` is `true` or left out and
non-increasing when it is `false`; with no filter the result is the one `orderTodos` returns
for the same key and `ascending`. -/
theorem filterTodos_sorts_selection (s : Store) (ts : List Fields) (key : String)
    (hs : s.Reads ts) (hk : key ≠ "")
    (hkinds : (∀ t ∈ ts, ∃ q, getField t key = some (.num q)) ∨
      (∀ t ∈ ts, ∃ a, getField t key = some (.str a))) :
    SortsSelection s (.json (.str "completed")) key (ts.filter (completedIs true)) ∧
      SortsSelection s (.json (.str "pending")) key (ts.filter (completedIs false)) ∧
      SortsSelection s (.json (.str "all")) key ts ∧
      SortsSelection s .undefined key ts ∧
      ∀ ascending : Val,
        (filterTodos s (.given ⟨.undefined, some key, ascending⟩)).1 =
          .ok (orderTodos s key ascending).1 := by
  have hsub : ∀ flag : Bool,
      (∀ t ∈ ts.filter (completedIs flag), ∃ q, getField t key = some (.num q)) ∨
        (∀ t ∈ ts.filter (completedIs flag), ∃ a, getField t key = some (.str a)) := by
    intro flag
    rcases hkinds with h | h
    · exact Or.inl (fun t ht => h t (List.mem_of_mem_filter ht))
    · exact Or.inr (fun t ht => h t (List.mem_of_mem_filter ht))
  refine ⟨?_, ?_, ?_, ?_, fun ascending => filterTodos_eq_orderTodos s key ascending hk⟩
  · apply sortsSelection_of_body s _ key _ hk _ (hsub true)
    intro ascending
    rw [filterTodosBody_no_sort s ts _ _ hs]
    rfl
  · apply sortsSelection_of_body s _ key _ hk _ (hsub false)
    intro ascending
    rw [filterTodosBody_no_sort s ts _ _ hs]
    rfl
  · apply sortsSelection_of_body s _ key _ hk _ hkinds
    intro ascending
    rw [filterTodosBody_no_sort s ts _ _ hs]
    rfl
  · apply sortsSelection_of_body s _ key _ hk _ hkinds
    intro ascending
    rw [filterTodosBody_no_sort s ts _ _ hs]
    rfl

theorem astralStore_reads : astralStore.Reads [taskTilde, taskSmile] :=
  ⟨rfl, Or.inr ⟨_, rfl, Or.inl rfl⟩⟩

theorem filterTodos_sorts_selection_witness :
    astralStore.Reads [taskTilde, taskSmile] ∧ "title" ≠ "" ∧
      ((∀ t ∈ [taskTilde, taskSmile], ∃ q, getField t "title" = some (.num q)) ∨
        (∀ t ∈ [taskTilde, taskSmile], ∃ a, getField t "title" = some (.str a))) ∧
      (SortsSelection astralStore (.json (.str "completed")) "title"
          ([taskTilde, taskSmile].filter (completedIs true)) ∧
        SortsSelection astralStore (.json (.str "pending")) "title"
          ([taskTilde, taskSmile].filter (completedIs false)) ∧
        SortsSelection astralStore (.json (.str "all")) "title" [taskTilde, taskSmile] ∧
        SortsSelection astralStore .undefined "title" [taskTilde, taskSmile] ∧
        ∀ ascending : Val,
          (filterTodos astralStore (.given ⟨.undefined, some "title", ascending⟩)).1 =
            .ok (orderTodos astralStore "title" ascending).1) :=
  ⟨astralStore_reads, by decide,
    Or.inr (by
      intro t ht
      simp only [List.mem_cons, List.mem_singleton, List.not_mem_nil, or_false] at ht
      rcases ht with rfl | rfl <;> exact ⟨_, rfl⟩),
    filterTodos_sorts_selection astralStore [taskTilde, taskSmile] "title"
      astralStore_reads (by decide)
      (Or.inr (by
        intro t ht
        simp only [List.mem_cons, List.mem_singleton, List.not_mem_nil, or_false] at ht
        rcases ht with rfl | rfl <;> exact ⟨_, rfl⟩))⟩

theorem filterTodos_title_order_by_code_unit :
    (filterTodos astralStore (.given ⟨.undefined, some "title", .undefined⟩)).1 =
        .ok (.json (.arr [.obj taskSmile, .obj taskTilde])) ∧
      (filterTodos astralStore (.given ⟨.undefined, some "title", .json (.bool false)⟩)).1 =
        .ok (.json (.arr [.obj taskTilde, .obj taskSmile])) ∧
      (filterTodos sampleStore (.given ⟨.undefined, some "id", .json (.bool false)⟩)).1 =
        .ok (.json (.arr [.obj taskNine, .obj taskFive])) :=
  ⟨rfl, rfl, rfl⟩

end TodoList
